import Mathlib

/-!
Verification of the rusty-awa AWA5.0 toolchain core against its specification.

The Rust sources are shallowly embedded:
- machine integers are modelled as `Nat`/`Int` with explicit masking where the
  source masks; `u8` arithmetic inside the `u5` operators is modelled with
  wrapping (release-mode) semantics, matching the explicit `& 0b11111` mask;
- the arena allocator is a list of slots plus a free-list head, exactly as in
  `arena.rs`; handles are plain indices;
- functions that follow arena pointers (and would diverge on a corrupted
  arena) take an explicit fuel argument and return `none` when it runs out;
  on every well-formed input enough fuel makes them total;
- fallible Rust code returning `Option<()>` becomes `Option` of the new state,
  code returning `Result` becomes `Except`;
- `FnMut` closures passed to `consume` are modelled as state-threading
  functions `σ → Int → Except ε σ` so that the call order is observable.

The value type `V` (`A::Value`, reference choice: pointer-wide signed integer)
is modelled as `Int`; Rust `/` and `%` on it are `Int.tdiv` / `Int.tmod`.
-/

namespace RustyAwa

/-- Decidable equality for `Except`, used to evaluate observations. -/
instance {ε α : Type} [DecidableEq ε] [DecidableEq α] : DecidableEq (Except ε α) := fun x y =>
  match x, y with
  | .ok a, .ok b => if h : a = b then isTrue (by rw [h]) else isFalse (by simp [h])
  | .error a, .error b => if h : a = b then isTrue (by rw [h]) else isFalse (by simp [h])
  | .ok _, .error _ => isFalse (by simp)
  | .error _, .ok _ => isFalse (by simp)

/-! ### u5 (crates/awa-core/src/_u5.rs)

The macro `impl_op!` implements `Add/Sub/Mul/Div/Rem` for `u5` as the `u8`
operation followed by `& 0b11111`.  `u8` arithmetic is modelled wrapping
modulo 256; division and remainder by zero have no result (Rust panics), so
they are modelled as `Option`. -/

namespace u5

def add (a b : Nat) : Nat := ((a + b) % 256) &&& 31

def sub (a b : Nat) : Nat := (((256 + a) - b) % 256) &&& 31

def mul (a b : Nat) : Nat := ((a * b) % 256) &&& 31

def div (a b : Nat) : Option Nat := if b = 0 then none else some ((a / b) &&& 31)

def rem (a b : Nat) : Option Nat := if b = 0 then none else some ((a % b) &&& 31)

end u5

/-! ### AwaSCII (crates/awa-core/src/awascii.rs) -/

namespace AwaSCII

/-- The fixed 64-entry AwaSCII → ASCII lookup table (`AwaSCII::TO_ASCII`). -/
def TO_ASCII : List Char :=
  ['A', 'W', 'a', 'w', 'J', 'E', 'L', 'Y', 'H', 'O', 'S', 'I', 'U', 'M', 'j',
   'e', 'l', 'y', 'h', 'o', 's', 'i', 'u', 'm', 'P', 'C', 'N', 'T', 'p', 'c',
   'n', 't', 'B', 'D', 'F', 'G', 'R', 'b', 'd', 'f', 'g', 'r', '0', '1', '2',
   '3', '4', '5', '6', '7', '8', '9', ' ', '.', ',', '!', '`', '(', ')', '~',
   '_', '/', ';', '\n']

/-- Checked constructor `AwaSCII::new`: the source rejects `awascii >= 32`. -/
def new (awascii : Nat) : Option Nat :=
  if awascii ≥ 32 then none else some awascii

/-- Error taxonomy of `awa-core` (only the variant used here). -/
inductive CoreError where
  | outOfBounds (bits : Nat)
deriving DecidableEq, Repr

/-- The `TryFrom<u8>` impl: rejects exactly the values above `0b111111`. -/
def tryFromU8 (value : Nat) : Except CoreError Nat :=
  if value > 63 then .error (.outOfBounds 6) else .ok value

/-- Lookup `AwaSCII::to_ascii`; the argument is below 64 at every call site,
the default is unreachable. -/
def to_ascii (awascii : Nat) : Char := TO_ASCII.getD awascii ' '

/-- The inverse table lookup `AwaSCII::from_ascii` (built by inverting
`TO_ASCII`, 255 = absent); table entries are distinct so this is the index of
the first occurrence. -/
def from_ascii (ascii : Char) : Option Nat :=
  let i := TO_ASCII.indexOf ascii
  if i < 64 then some i else none

end AwaSCII

/-! ### Number-input parsing (crates/awa-interpreter/src/lib.rs) -/

/-- Loop body of `parse_number_input`: accumulate leading ASCII digits,
return `Some(result)` at the first non-digit or at the end of the string. -/
def parseNumberLoop (result : Int) : List Char → Option Int
  | [] => some result
  | chr :: rest =>
    if '0' ≤ chr ∧ chr ≤ '9' then
      parseNumberLoop (10 * result + ((chr.toNat : Int) - 48)) rest
    else
      some result

/-- Embedding of `parse_number_input` (note: it never returns `None`). -/
def parse_number_input (src : List Char) : Option Int := parseNumberLoop 0 src

/-- Modelled from the spec: value of the leading run of ASCII digits, parsed
in base 10 with no sign (spec §4.5, `ReadNum`).  This is the specification
side of claim C8, to be compared with `parse_number_input`. -/
def specLeadingNumber (src : List Char) : Int :=
  (src.takeWhile fun chr => decide ('0' ≤ chr ∧ chr ≤ '9')).foldl
    (fun acc chr => 10 * acc + ((chr.toNat : Int) - 48)) 0

theorem parseNumberLoop_eq (src : List Char) : ∀ acc : Int,
    parseNumberLoop acc src =
      some ((src.takeWhile fun chr => decide ('0' ≤ chr ∧ chr ≤ '9')).foldl
        (fun acc chr => 10 * acc + ((chr.toNat : Int) - 48)) acc) := by
  induction src with
  | nil => intro acc; rfl
  | cons chr rest ih =>
    intro acc
    by_cases h : '0' ≤ chr ∧ chr ≤ '9'
    · simp [parseNumberLoop, h, List.takeWhile_cons, ih]
    · simp [parseNumberLoop, h, List.takeWhile_cons]

theorem parse_number_input_eq (src : List Char) :
    parse_number_input src = some (specLeadingNumber src) := by
  simpa [parse_number_input, specLeadingNumber] using parseNumberLoop_eq src 0

/-! ### Bubbles and the arena (crates/awa-abyss/src/arena.rs, linked.rs)

`Bubble<T>` with `T := Int`; the build without the `cache_count` feature is
modelled, so `Double` carries no cached count and `count` is computed by
`find_count`. -/

inductive Bubble where
  | single (value : Int) (next : Option Nat)
  | double (first : Nat) (last : Nat) (next : Option Nat)
deriving DecidableEq, Repr

/-- `Bubble::next`. -/
def Bubble.next : Bubble → Option Nat
  | .single _ next => next
  | .double _ _ next => next

/-- Write through `Bubble::next_mut`. -/
def Bubble.withNext : Bubble → Option Nat → Bubble
  | .single value _, next => .single value next
  | .double first last _, next => .double first last next

inductive Entry where
  | occupied (bubble : Bubble)
  | free (next : Option Nat)
deriving DecidableEq, Repr

structure Arena where
  heap : List Entry
  freeHead : Option Nat
deriving DecidableEq, Repr

namespace Arena

def empty : Arena := ⟨[], none⟩

/-- `Arena::insert`: reuse the head of the free list, else push.  If the free
list ever pointed at a non-free slot the source would panic; that branch is
unreachable and modelled by clearing the free list. -/
def insert (a : Arena) (value : Bubble) : Arena × Nat :=
  match a.freeHead with
  | some index =>
    let tail : Option Nat :=
      match a.heap[index]? with
      | some (.free nf) => nf
      | _ => none
    (⟨a.heap.set index (.occupied value), tail⟩, index)
  | none => (⟨a.heap ++ [.occupied value], none⟩, a.heap.length)

/-- `Arena::remove`: free an occupied slot, prepending it to the free list;
a non-occupied slot yields `none` and leaves the arena unchanged. -/
def remove (a : Arena) (index : Nat) : Arena × Option Bubble :=
  match a.heap[index]? with
  | some (.occupied value) =>
    (⟨a.heap.set index (.free a.freeHead), some index⟩, some value)
  | _ => (a, none)

/-- `Arena::get`. -/
def get (a : Arena) (index : Nat) : Option Bubble :=
  match a.heap[index]? with
  | some (.occupied value) => some value
  | _ => none

/-- `arena[index].next()`; the source panics on a dangling index (that case is
unreachable on the states the program builds). -/
def getNext (a : Arena) (index : Nat) : Option Nat :=
  match a.get index with
  | some b => b.next
  | none => none

/-- Write `*arena[index].next_mut() = next`; dangling index unreachable. -/
def setNext (a : Arena) (index : Nat) (next : Option Nat) : Arena :=
  match a.get index with
  | some b => ⟨a.heap.set index (.occupied (b.withNext next)), a.freeHead⟩
  | none => a

/-- Write `*value = ...` on a Single at `index`; only called on singles. -/
def setValue (a : Arena) (index : Nat) (value : Int) : Arena :=
  match a.get index with
  | some (.single _ next) => ⟨a.heap.set index (.occupied (.single value next)), a.freeHead⟩
  | _ => a

/-- Overwrite the `inner` pair of a Double at `index` (`*inner = (first, last)`
after `get_mut`); only called on doubles. -/
def setInner (a : Arena) (index : Nat) (first last : Nat) : Arena :=
  match a.get index with
  | some (.double _ _ next) =>
    ⟨a.heap.set index (.occupied (.double first last next)), a.freeHead⟩
  | _ => a

end Arena

/-- Helper `move_next` of linked.rs: walk up to `count` steps along `next`,
returning the index reached and the number of steps taken. -/
def moveNext (arena : Arena) (first : Nat) : Nat → Nat × Nat
  | 0 => (first, 0)
  | count + 1 =>
    match arena.getNext first with
    | some next =>
      ((moveNext arena next count).1, (moveNext arena next count).2 + 1)
    | none => (first, 0)

/-- Helper `remove_all` of linked.rs: deallocate a whole chain with its
subtrees (fueled; `none` = fuel ran out). -/
def removeAll (fuel : Nat) (arena : Arena) (first : Nat) : Option Arena :=
  match fuel with
  | 0 => none
  | fuel + 1 =>
    match arena.remove first with
    | (arena, some (.single _ next)) =>
      match next with
      | none => some arena
      | some nx => removeAll fuel arena nx
    | (arena, some (.double inner _ next)) => do
      let arena ← removeAll fuel arena inner
      match next with
      | none => some arena
      | some nx => removeAll fuel arena nx
    | (_, none) => none

/-- Helper `find_count` of linked.rs (build without `cache_count`): number of
steps from `first` to the end of its chain. -/
def findCount (fuel : Nat) (arena : Arena) (first : Nat) : Option Int :=
  match fuel with
  | 0 => none
  | fuel + 1 =>
    match arena.getNext first with
    | some next => do
      let count ← findCount fuel arena next
      some (count + 1)
    | none =>
      match arena.get first with
      | some _ => some 0
      | none => none

/-- `Bubble::count` (non-cached build): zero for a Single, `find_count` from
the first child for a Double. -/
def Bubble.count (fuel : Nat) (arena : Arena) : Bubble → Option Int
  | .single _ _ => some 0
  | .double first _ _ => findCount fuel arena first

/-! ### The linked Abyss (crates/awa-abyss/src/linked.rs) -/

structure Abyss where
  arena : Arena
  top : Option Nat
deriving DecidableEq, Repr

namespace Abyss

def new : Abyss := ⟨Arena.empty, none⟩

/-- `Abyss::blow`: push a Single. -/
def blow (s : Abyss) (value : Int) : Option Abyss :=
  let (arena, index) := s.arena.insert (.single value s.top)
  some ⟨arena, some index⟩

/-- `Abyss::blow_awascii`: fold over the reversed string allocating one Single
per character; `first` keeps the first inserted index, `last` the most recent;
then wrap `(first, last)` into a Double (or push `Single 0` for the empty
string). -/
def blow_awascii (s : Abyss) (awascii : List Nat) : Option Abyss :=
  let folded :=
    awascii.reverse.foldl
      (fun (acc : Arena × Option Nat × Option Nat) (chr : Nat) =>
        let (arena, first, last) := acc
        let (arena, index) := arena.insert (.single (Int.ofNat chr) last)
        (arena, first.or (some index), some index))
      (s.arena, none, none)
  match folded with
  | (arena, some first, some last) =>
    let (arena, index) := arena.insert (.double first last s.top)
    some ⟨arena, some index⟩
  | (arena, _, _) =>
    let (arena, index) := arena.insert (.single 0 s.top)
    some ⟨arena, some index⟩

/-- Number of addressable `usize` values minus one; `submerge(0)` walks up to
this many steps (i.e. to the bottom of the chain). -/
def usizeMax : Nat := 2 ^ 64 - 1

/-- `Abyss::submerge`. -/
def submerge (s : Abyss) (distance : Nat) : Option Abyss := do
  let first ← s.top
  let count := if distance = 0 then usizeMax else distance
  let (before, _) := moveNext s.arena first count
  let after := s.arena.getNext before
  let arena := s.arena.setNext before (some first)
  let top := arena.getNext first
  let arena := arena.setNext first after
  some ⟨arena, top⟩

/-- `Abyss::pop`: remove the top node; a Double is spliced into the chain. -/
def pop (s : Abyss) : Option Abyss := do
  let top ← s.top
  match s.arena.remove top with
  | (arena, some (.single _ next)) => some ⟨arena, next⟩
  | (arena, some (.double first last next)) =>
    some ⟨arena.setNext last next, some first⟩
  | (_, none) => none

mutual

/-- Helper `deep_copy` of linked.rs: structurally clone the bubble at `root`
(the clone of a Double initially shares the original `next` pointers of its
children, which the sibling loop then redirects to fresh copies). -/
def deepCopy (fuel : Nat) (arena : Arena) (root : Nat) : Option (Arena × Nat) :=
  match fuel with
  | 0 => none
  | fuel + 1 =>
    match arena.get root with
    | none => none
    | some copy =>
      let (arena, index) := arena.insert copy
      match copy with
      | .single _ _ => some (arena, index)
      | .double inner _ _ => do
        let (arena, last) ← deepCopy fuel arena inner
        let first := last
        let (arena, last) ← deepCopyRest fuel arena last
        some (arena.setInner index first last, index)

/-- The sibling loop in `deep_copy`: while the copy at `last` still points at
an original sibling, clone it and relink. -/
def deepCopyRest (fuel : Nat) (arena : Arena) (last : Nat) : Option (Arena × Nat) :=
  match fuel with
  | 0 => none
  | fuel + 1 =>
    match arena.getNext last with
    | none => some (arena, last)
    | some next => do
      let (arena, index) ← deepCopy fuel arena next
      let arena := arena.setNext last (some index)
      deepCopyRest fuel arena index

end

/-- `Abyss::duplicate`. -/
def duplicate (fuel : Nat) (s : Abyss) : Option Abyss := do
  let index ← s.top
  let (arena, copy) ← deepCopy fuel s.arena index
  let arena := arena.setNext copy (some index)
  some ⟨arena, some copy⟩

/-- `Abyss::surround`: `count = 0` is a no-op; otherwise walk `count - 1`
steps from the top (stopping early at the end of the chain) and wrap the
nodes passed into one Double. -/
def surround (s : Abyss) (count : Nat) : Option Abyss :=
  if count = 0 then some s
  else do
    let first ← s.top
    let (last, _) := moveNext s.arena first (count - 1)
    let next := s.arena.getNext last
    let arena := s.arena.setNext last none
    let (arena, index) := arena.insert (.double first last next)
    some ⟨arena, some index⟩

/-- `Abyss::merge`: join the top two bubbles into one Double (four shape
cases, exactly as in the source). -/
def merge (s : Abyss) : Option Abyss := do
  let first ← s.top
  match s.arena.get first with
  | none => none
  | some (.single _ next1) => do
    let second ← next1
    match s.arena.get second with
    | some (.single _ next2) =>
      let third := next2
      let arena := s.arena.setNext second none
      let (arena, index) := arena.insert (.double first second third)
      some ⟨arena, some index⟩
    | some (.double innerFirst innerLast _) =>
      let arena := s.arena.setInner second first innerLast
      let arena := arena.setNext first (some innerFirst)
      some ⟨arena, some second⟩
    | none => none
  | some (.double _ _ next1) => do
    let second ← next1
    match s.arena.get second with
    | some (.single _ next2) =>
      let third := next2
      let arena := s.arena.setNext second none
      match arena.get first with
      | some (.double fInner fLast _) =>
        let arena := arena.setInner first fInner second
        let arena := arena.setNext first third
        let arena := arena.setNext fLast (some second)
        some ⟨arena, s.top⟩
      | _ => none
    | some (.double rFirst rLast next2) =>
      let (arena, _) := s.arena.remove second
      let third := next2
      match arena.get first with
      | some (.double fInner fLast _) =>
        let arena := arena.setInner first fInner rLast
        let arena := arena.setNext first third
        let arena := arena.setNext fLast (some rFirst)
        some ⟨arena, s.top⟩
      | _ => none
    | none => none

/-- `Abyss::count`: push a Single holding the top bubble's child count. -/
def count (fuel : Nat) (s : Abyss) : Option Abyss := do
  let top ← s.top
  let bubble ← s.arena.get top
  let value ← bubble.count fuel s.arena
  let (arena, index) := s.arena.insert (.single value s.top)
  some ⟨arena, some index⟩

/-- `Abyss::test`: read (never mutate) the top two bubbles; any non-Single
shape short-circuits to `Some(false)`; a missing second bubble after a Single
top is the only way to get `None` besides an empty chain. -/
def test (s : Abyss) (t : Int → Int → Bool) : Option Bool := do
  let top ← s.top
  match s.arena.get top with
  | some (.single v next) => do
    let second ← next
    match s.arena.get second with
    | some (.single w _) => some (t v w)
    | _ => some false
  | _ => some false

/-- The `map_right` helper of `combine_single`: broadcast the consumed single
value `lhs` over every leaf of the chain starting at `rhs`, in place. -/
def csMapRight (fuel : Nat) (arena : Arena) (lhs : Int) (rhs : Nat)
    (op : Int → Int → Int) : Option Arena :=
  match fuel with
  | 0 => none
  | fuel + 1 =>
    match arena.get rhs with
    | some (.single value next) =>
      let arena := arena.setValue rhs (op lhs value)
      match next with
      | some nx => csMapRight fuel arena lhs nx op
      | none => some arena
    | some (.double inner _ next) => do
      let arena ← csMapRight fuel arena lhs inner op
      match next with
      | some nx => csMapRight fuel arena lhs nx op
      | none => some arena
    | none => none

mutual

/-- The `inner` helper of `combine_single`: combine the bubbles at `lhs` and
`rhs` (four shape cases); returns the saved next pointers of both operands
and whether `rhs` (rather than `lhs`) was removed. -/
def csInner (fuel : Nat) (arena : Arena) (lhs rhs : Nat)
    (op : Int → Int → Int) : Option (Arena × (Option Nat × Option Nat) × Bool) :=
  match fuel with
  | 0 => none
  | fuel + 1 =>
    match arena.get lhs, arena.get rhs with
    | some (.single vl nl), some (.single vr nr) =>
      let next := (nl, nr)
      let arena := arena.setValue rhs (op vl vr)
      let (arena, _) := arena.remove lhs
      some (arena, next, false)
    | some (.single value nl), some (.double inner _ nr) => do
      let next := (nl, nr)
      let (arena, _) := arena.remove lhs
      let arena ← csMapRight fuel arena value inner op
      some (arena, next, false)
    | some (.double inner _ nl), some (.single value nr) => do
      let next := (nl, nr)
      let (arena, _) := arena.remove rhs
      let arena ← csMapRight fuel arena value inner (fun a b => op b a)
      some (arena, next, true)
    | some (.double innerL _ nl), some (.double innerR _ nr) => do
      let next := (nl, nr)
      let (arena, _) := arena.remove lhs
      let (arena, rest) ← csMapDouble fuel arena innerL innerR op
      let arena ←
        match rest with
        | some rest => removeAll fuel arena rest
        | none => some arena
      some (arena, next, false)
    | _, _ => none

/-- The `map_double` helper of `combine_single`: walk both inner chains in
lockstep; the first unpaired node (if the lengths differ) is returned for
deallocation. -/
def csMapDouble (fuel : Nat) (arena : Arena) (lhs rhs : Nat)
    (op : Int → Int → Int) : Option (Arena × Option Nat) :=
  match fuel with
  | 0 => none
  | fuel + 1 => do
    let (arena, next, _) ← csInner fuel arena lhs rhs op
    match next with
    | (some nl, some nr) => csMapDouble fuel arena nl nr op
    | (some rest, none) => some (arena, some rest)
    | (none, some rest) => some (arena, some rest)
    | (none, none) => some (arena, none)

end

/-- `Abyss::combine_single`.  In the `relink` case (Double lhs, Single rhs)
the source writes `*self.arena[rhs].next_mut() = third` although `inner` has
just removed `rhs`: the `Index` impl panics on the freed slot, so that branch
has no success path.  The model returns `none` there rather than pretend the
write succeeded; `rhs` is freed and never re-inserted inside `inner`, so the
`some` sub-case is unreachable. -/
def combine_single (fuel : Nat) (s : Abyss) (op : Int → Int → Int) :
    Option Abyss := do
  let lhs ← s.top
  let rhs ← s.arena.getNext lhs
  let (arena, next, relink) ← csInner fuel s.arena lhs rhs op
  let third := next.2
  if relink then
    match arena.get rhs with
    | some _ => some ⟨arena.setNext rhs third, s.top⟩
    | none => none
  else
    some ⟨arena, some rhs⟩

/-- The `map_right` helper of `combine_double`: wrap every leaf of the chain
starting at `rhs` into a Double `{op1(lhs, leaf), op2(lhs, leaf)}`; `last`
carries the previous chain node to be relinked (starts as `None`). -/
def cdMapRight (fuel : Nat) (arena : Arena) (lhs : Int) (last : Option Nat)
    (rhs : Nat) (op1 op2 : Int → Int → Int) : Option Arena :=
  match fuel with
  | 0 => none
  | fuel + 1 =>
    match arena.get rhs with
    | some (.single value next) =>
      let arena := arena.setNext rhs none
      let leftValue := op1 lhs value
      let arena := arena.setValue rhs (op2 lhs value)
      let (arena, leftIndex) := arena.insert (.single leftValue (some rhs))
      let (arena, index) := arena.insert (.double leftIndex rhs none)
      let arena :=
        match last with
        | some l => arena.setNext l (some index)
        | none => arena
      match next with
      | some nx => cdMapRight fuel arena lhs (some rhs) nx op1 op2
      | none => some arena
    | some (.double inner _ next) => do
      let arena ← cdMapRight fuel arena lhs none inner op1 op2
      match next with
      | some nx => cdMapRight fuel arena lhs (some rhs) nx op1 op2
      | none => some arena
    | none => none

mutual

/-- The `inner` helper of `combine_double`: returns the wrapping Double's
index and the saved next pointers of both operands. -/
def cdInner (fuel : Nat) (arena : Arena) (lhs rhs : Nat)
    (op1 op2 : Int → Int → Int) : Option (Arena × Nat × (Option Nat × Option Nat)) :=
  match fuel with
  | 0 => none
  | fuel + 1 =>
    match arena.get lhs, arena.get rhs with
    | some (.single vl nl), some (.single vr nr) =>
      let next := (nl, nr)
      let arena := arena.setNext lhs (some rhs)
      let arena := arena.setNext rhs none
      let arena := arena.setValue lhs (op1 vl vr)
      let arena := arena.setValue rhs (op2 vl vr)
      let (arena, index) := arena.insert (.double lhs rhs none)
      some (arena, index, next)
    | some (.single value nl), some (.double inner _ nr) => do
      let (arena, _) := arena.remove lhs
      let arena ← cdMapRight fuel arena value none inner op1 op2
      some (arena, rhs, (nl, nr))
    | some (.double inner _ nl), some (.single value nr) => do
      let (arena, _) := arena.remove rhs
      let arena ← cdMapRight fuel arena value none inner
        (fun a b => op1 b a) (fun a b => op2 b a)
      some (arena, lhs, (nl, nr))
    | some (.double innerL _ nl), some (.double innerR _ nr) => do
      let (arena, _) := arena.remove lhs
      let (arena, rest) ← cdMapDouble fuel arena none innerL innerR op1 op2
      let arena ←
        match rest with
        | some rest => removeAll fuel arena rest
        | none => some arena
      some (arena, rhs, (nl, nr))
    | _, _ => none

/-- The `map_double` helper of `combine_double`; `last` carries the previous
wrapper to be relinked. -/
def cdMapDouble (fuel : Nat) (arena : Arena) (last : Option Nat) (lhs rhs : Nat)
    (op1 op2 : Int → Int → Int) : Option (Arena × Option Nat) :=
  match fuel with
  | 0 => none
  | fuel + 1 => do
    let (arena, outer, next) ← cdInner fuel arena lhs rhs op1 op2
    let arena :=
      match last with
      | some l => arena.setNext l (some outer)
      | none => arena
    match next with
    | (some nl, some nr) => cdMapDouble fuel arena (some outer) nl nr op1 op2
    | (some rest, none) => some (arena, some rest)
    | (none, some rest) => some (arena, some rest)
    | (none, none) => some (arena, none)

end

/-- `Abyss::combine_double`. -/
def combine_double (fuel : Nat) (s : Abyss) (op1 op2 : Int → Int → Int) :
    Option Abyss := do
  let lhs ← s.top
  let rhs ← s.arena.getNext lhs
  let (arena, outer, next) ← cdInner fuel s.arena lhs rhs op1 op2
  let third := next.2
  let arena := arena.setNext outer third
  some ⟨arena, some outer⟩

mutual

/-- The `inner` helper of `Abyss::consume`: remove the bubble at `index`
first, then emit its value (Single) or loop over its children (Double).  The
closure is state-threading (`acc`), its first error is propagated while the
arena mutations made so far are kept. -/
def consumeInner {σ ε : Type} (fuel : Nat) (arena : Arena) (index : Nat)
    (acc : σ) (f : σ → Int → Except ε σ) :
    Option (Arena × Except ε (σ × Option Nat)) :=
  match fuel with
  | 0 => none
  | fuel + 1 =>
    match arena.remove index with
    | (arena, some (.single value next)) =>
      match f acc value with
      | .ok acc => some (arena, .ok (acc, next))
      | .error e => some (arena, .error e)
    | (arena, some (.double inner _ next)) =>
      consumeLoop fuel arena inner acc f next
    | (_, none) => none

/-- The `loop` in `consume`'s Double branch: drain the inner chain, then
return the outer `next`. -/
def consumeLoop {σ ε : Type} (fuel : Nat) (arena : Arena) (index : Nat)
    (acc : σ) (f : σ → Int → Except ε σ) (next : Option Nat) :
    Option (Arena × Except ε (σ × Option Nat)) :=
  match fuel with
  | 0 => none
  | fuel + 1 =>
    match consumeInner fuel arena index acc f with
    | none => none
    | some (arena, .error e) => some (arena, .error e)
    | some (arena, .ok (acc, some nx)) => consumeLoop fuel arena nx acc f next
    | some (arena, .ok (acc, none)) => some (arena, .ok (acc, next))

end

/-- `Abyss::consume`: `Ok(None)` (modelled as the Bool `false`) when the
Abyss is empty; on an error from the closure, `self.top` is left unchanged
while the arena keeps the removals made so far. -/
def consume {σ ε : Type} (fuel : Nat) (s : Abyss) (acc : σ)
    (f : σ → Int → Except ε σ) : Option (Abyss × Except ε (σ × Bool)) :=
  match s.top with
  | none => some (s, .ok (acc, false))
  | some top =>
    match consumeInner fuel s.arena top acc f with
    | none => none
    | some (arena, .ok (acc, next)) => some (⟨arena, next⟩, .ok (acc, true))
    | some (arena, .error e) => some (⟨arena, s.top⟩, .error e)

/-- Modelled from the spec: `is_empty` is required by the `Abyss` trait but
has no implementation in linked.rs under src/; spec §4.2: true iff
`top = None`. -/
def is_empty (s : Abyss) : Bool := s.top.isNone

/-- Modelled from the spec: `double_pop` is required by the `Abyss` trait but
has no implementation in linked.rs under src/; spec §4.2: remove the topmost
node and, if a Double, recursively remove its entire subtree (no splicing). -/
def double_pop (fuel : Nat) (s : Abyss) : Option Abyss := do
  let top ← s.top
  match s.arena.remove top with
  | (arena, some (.single _ next)) => some ⟨arena, next⟩
  | (arena, some (.double inner _ next)) => do
    let arena ← removeAll fuel arena inner
    some ⟨arena, next⟩
  | (_, none) => none

/-- Trait default `blow_many` (abyss.rs): blow each value in order. -/
def blow_many (s : Abyss) (values : List Int) : Option Abyss :=
  values.foldlM (fun s v => s.blow v) s

/-- Trait default `blow_double` (abyss.rs): `cast` of the length to the `u5`
argument of the linked `surround` fails for 32 or more elements; otherwise
blow all values and surround them. -/
def blow_double (s : Abyss) (inner : List Int) : Option Abyss :=
  if inner.length ≥ 32 then none
  else do
    let s ← s.blow_many inner
    s.surround inner.length

/-- Trait default `merge_many` (abyss.rs): merge `count` times. -/
def merge_many (s : Abyss) (count : Nat) : Option Abyss :=
  match count with
  | 0 => some s
  | count + 1 => do
    let s ← s.merge
    s.merge_many count

end Abyss

/-! ### The buffering wrapper (crates/awa-abyss/src/buffered.rs)

`Buffered<A>` instantiated at the linked `Abyss`.  The `Vec<T>` buffer is a
`List Int` with its end as the most recently pushed element. -/

inductive BufferKind where
  | empty
  | singles
  | double
deriving DecidableEq, Repr

structure Buffered where
  inner : Abyss
  data : List Int
  kind : BufferKind
deriving DecidableEq, Repr

namespace Buffered

def new : Buffered := ⟨Abyss.new, [], .empty⟩

/-- `Buffered::copy`: push the pending buffer into the backing store (all as
Singles, or as one Double) without clearing it. -/
def copy (b : Buffered) : Option Buffered :=
  match b.kind with
  | .empty => some b
  | .singles => do
    let inner ← b.inner.blow_many b.data
    some { b with inner }
  | .double => do
    let inner ← b.inner.blow_double b.data
    some { b with inner }

/-- `Buffered::commit`: `copy` then clear the buffer. -/
def commit (b : Buffered) : Option Buffered := do
  let b ← b.copy
  some { b with data := [], kind := .empty }

/-- `Buffered::blow` (via `get_singles_mut`): commit a pending double, switch
to `Singles`, append. -/
def blow (b : Buffered) (value : Int) : Option Buffered := do
  let b ← if b.kind = .double then b.commit else some b
  some { b with kind := .singles, data := b.data ++ [value] }

/-- `Buffered::blow_awascii` (via `get_double_mut`): commit pending singles or
double, switch to `Double`, extend with the character values. -/
def blow_awascii (b : Buffered) (awascii : List Nat) : Option Buffered := do
  let b ← if b.kind = .singles ∨ b.kind = .double then b.commit else some b
  some { b with kind := .double, data := b.data ++ awascii.map Int.ofNat }

/-- `Buffer::pop` (the buffer helper): `None` when empty; in `Singles` pop
the last value (emptying resets the kind); a pending `Double` degrades to
`Singles` and reports no value. -/
def bufferPop (b : Buffered) : Option (Buffered × Option Int) :=
  match b.kind with
  | .empty => none
  | .singles =>
    match b.data.getLast? with
    | some value =>
      let data := b.data.dropLast
      let kind := if data.isEmpty then BufferKind.empty else .singles
      some ({ b with data, kind }, some value)
    | none => none
  | .double => some ({ b with kind := .singles }, none)

/-- `Buffered::pop`: serve from the buffer, else delegate. -/
def pop (b : Buffered) : Option Buffered :=
  match b.bufferPop with
  | some (b, _) => some b
  | none => do
    let inner ← b.inner.pop
    some { b with inner }

/-- `Buffered::count`: in `Singles` mode the source pushes `one()` onto the
buffer; in `Double` mode it commits and pushes the buffered length. -/
def count (fuel : Nat) (b : Buffered) : Option Buffered :=
  match b.kind with
  | .empty => do
    let inner ← b.inner.count fuel
    some { b with inner }
  | .singles => some { b with data := b.data ++ [1] }
  | .double => do
    let cnt : Int := b.data.length
    let b ← b.commit
    some { b with data := b.data ++ [cnt], kind := .singles }

/-- `Buffered::test`. -/
def test (b : Buffered) (t : Int → Int → Bool) : Option Bool :=
  match b.kind with
  | .empty => b.inner.test t
  | .singles =>
    match b.data.length with
    | 0 => none
    | 1 => do
      let b ← b.commit
      b.inner.test t
    | len =>
      let middle := len - 2
      match b.data[middle + 1]?, b.data[middle]? with
      | some x, some y => some (t x y)
      | _, _ => none
  | .double => if b.inner.is_empty then none else some false

/-- `Buffered::consume`: `Singles` serves the last buffered value (popping it
only after the closure succeeded); `Double` drains the buffer in reverse and
clears it on success. -/
def consume {σ ε : Type} (fuel : Nat) (b : Buffered) (acc : σ)
    (f : σ → Int → Except ε σ) : Option (Buffered × Except ε (σ × Bool)) :=
  match b.kind with
  | .empty =>
    match b.inner.consume fuel acc f with
    | none => none
    | some (inner, result) => some ({ b with inner }, result)
  | .singles =>
    match b.data.getLast? with
    | none => none
    | some value =>
      match f acc value with
      | .error e => some (b, .error e)
      | .ok acc =>
        let data := b.data.dropLast
        let kind := if data.isEmpty then BufferKind.empty else BufferKind.singles
        some ({ b with data, kind }, .ok (acc, true))
  | .double =>
    match b.data.reverse.foldlM f acc with
    | .error e => some (b, .error e)
    | .ok acc => some ({ b with data := [], kind := .empty }, .ok (acc, true))

end Buffered

/-! ### Instructions, program and interpreter
(crates/awa-core/src/awatism.rs, program.rs; crates/awa-interpreter/src)

The interpreter runs on the linked `Abyss`.  Input is a list of lines (a
`read_line` pops one; the empty list is end of input, where `read_line`
reads zero bytes).  Output is the accumulated string of written bytes. -/

inductive AwaTism where
  | noOp
  | print
  | printNum
  | read
  | readNum
  | terminate
  | blow (value : Int)
  | submerge (distance : Nat)
  | pop
  | duplicate
  | surround (count : Nat)
  | merge
  | add
  | subtract
  | multiply
  | divide
  | count
  | label (l : Nat)
  | jump (l : Nat)
  | equalTo
  | lessThan
  | greaterThan
  | doublePop
deriving DecidableEq, Repr

/-- Runtime error kinds of awa-interpreter (`Error`); `CoreError` values
surfaced through `consume` are folded into `outOfBounds`. -/
inductive RtError where
  | ioError
  | noNumber
  | notEnoughBubbles (n : Nat)
  | noSpace
  | fmtError
  | outOfBounds (bits : Nat)
  | unknownLabel (l : Nat)
deriving DecidableEq, Repr

/-- `ContinueAt`: location of the next instruction to execute. -/
inductive ContinueAt where
  | halt
  | next
  | skipNext
  | label (l : Nat)
deriving DecidableEq, Repr

/-- `parse_awascii_input`: keep the ASCII characters that AwaSCII can
represent, dropping the rest silently. -/
def parse_awascii_input (src : List Char) : List Nat :=
  src.filterMap fun chr =>
    if chr.toNat < 128 then AwaSCII.from_ascii chr else none

/-- Interpreter state: the Abyss plus the two I/O streams (the scratch
buffers `iobuffer`/`awabuffer` are cleared at each use and modelled
locally). -/
structure Interpreter where
  abyss : Abyss
  input : List (List Char)
  output : String
deriving DecidableEq, Repr

namespace Interpreter

/-- `Interpreter::next`: execute one instruction, returning the mutated state
and either a `ContinueAt` or a runtime error (`none` = fuel ran out inside an
Abyss operation). -/
def next (fuel : Nat) (st : Interpreter) (awatism : AwaTism) :
    Option (Interpreter × Except RtError ContinueAt) :=
  match awatism with
  | .noOp => some (st, .ok .next)
  | .print =>
    match st.abyss.consume (ε := RtError) fuel ""
      (fun acc v =>
        if 0 ≤ v ∧ v < 64 then .ok (acc.push (AwaSCII.to_ascii v.toNat))
        else .error (.outOfBounds 6)) with
    | none => none
    | some (abyss, .error e) => some ({ st with abyss }, .error e)
    | some (abyss, .ok (buf, true)) =>
      some ({ st with abyss, output := st.output ++ buf }, .ok .next)
    | some (abyss, .ok (_, false)) =>
      some ({ st with abyss }, .error (.notEnoughBubbles 1))
  | .printNum =>
    match st.abyss.consume (ε := RtError) fuel ("", true)
      (fun acc v =>
        let buf := if acc.2 then acc.1 else acc.1 ++ " "
        .ok (buf ++ toString v, false)) with
    | none => none
    | some (abyss, .error e) => some ({ st with abyss }, .error e)
    | some (abyss, .ok (buf, true)) =>
      some ({ st with abyss, output := st.output ++ buf.1 }, .ok .next)
    | some (abyss, .ok (_, false)) =>
      some ({ st with abyss }, .error (.notEnoughBubbles 1))
  | .read =>
    match st.input with
    | [] => some (st, .ok .next)
    | line :: rest =>
      match st.abyss.blow_awascii (parse_awascii_input line) with
      | some abyss => some ({ st with abyss, input := rest }, .ok .next)
      | none => some ({ st with input := rest }, .error .noSpace)
  | .readNum =>
    match st.input with
    | [] => some (st, .error .noNumber)
    | line :: rest =>
      match parse_number_input line with
      | none => some ({ st with input := rest }, .error .noNumber)
      | some value =>
        match st.abyss.blow value with
        | some abyss => some ({ st with abyss, input := rest }, .ok .next)
        | none => some ({ st with input := rest }, .error .noSpace)
  | .terminate => some (st, .ok .halt)
  | .blow value =>
    match st.abyss.blow value with
    | some abyss => some ({ st with abyss }, .ok .next)
    | none => some (st, .error .noSpace)
  | .submerge distance =>
    match st.abyss.submerge distance with
    | some abyss => some ({ st with abyss }, .ok .next)
    | none => some (st, .error (.notEnoughBubbles distance))
  | .pop =>
    match st.abyss.pop with
    | some abyss => some ({ st with abyss }, .ok .next)
    | none => some (st, .error (.notEnoughBubbles 1))
  | .duplicate =>
    match st.abyss.duplicate fuel with
    | some abyss => some ({ st with abyss }, .ok .next)
    | none => some (st, .error (.notEnoughBubbles 1))
  | .surround cnt =>
    match st.abyss.surround cnt with
    | some abyss => some ({ st with abyss }, .ok .next)
    | none => some (st, .error (.notEnoughBubbles cnt))
  | .merge =>
    match st.abyss.merge with
    | some abyss => some ({ st with abyss }, .ok .next)
    | none => some (st, .error (.notEnoughBubbles 2))
  | .add =>
    match st.abyss.combine_single fuel (fun a b => a + b) with
    | some abyss => some ({ st with abyss }, .ok .next)
    | none => some (st, .error (.notEnoughBubbles 2))
  | .subtract =>
    match st.abyss.combine_single fuel (fun a b => a - b) with
    | some abyss => some ({ st with abyss }, .ok .next)
    | none => some (st, .error (.notEnoughBubbles 2))
  | .multiply =>
    match st.abyss.combine_single fuel (fun a b => a * b) with
    | some abyss => some ({ st with abyss }, .ok .next)
    | none => some (st, .error (.notEnoughBubbles 2))
  | .divide =>
    match st.abyss.combine_double fuel Int.tdiv Int.tmod with
    | some abyss => some ({ st with abyss }, .ok .next)
    | none => some (st, .error (.notEnoughBubbles 2))
  | .count =>
    match st.abyss.count fuel with
    | some abyss => some ({ st with abyss }, .ok .next)
    | none => some (st, .error (.notEnoughBubbles 1))
  | .label _ => some (st, .ok .next)
  | .jump l => some (st, .ok (.label l))
  | .equalTo =>
    match st.abyss.test (fun a b => decide (a = b)) with
    | some true => some (st, .ok .next)
    | some false => some (st, .ok .skipNext)
    | none => some (st, .error (.notEnoughBubbles 2))
  | .lessThan =>
    match st.abyss.test (fun a b => decide (a < b)) with
    | some true => some (st, .ok .next)
    | some false => some (st, .ok .skipNext)
    | none => some (st, .error (.notEnoughBubbles 2))
  | .greaterThan =>
    match st.abyss.test (fun a b => decide (a > b)) with
    | some true => some (st, .ok .next)
    | some false => some (st, .ok .skipNext)
    | none => some (st, .error (.notEnoughBubbles 2))
  | .doublePop =>
    match st.abyss.double_pop fuel with
    | some abyss => some ({ st with abyss }, .ok .next)
    | none => some (st, .error (.notEnoughBubbles 1))

end Interpreter

/-- `Program::from_vec` label resolution: `labels[l] = Some(pc + 1)` for the
latest `Label l` at index `pc` (32 slots). -/
def programLabels (instructions : List AwaTism) : List (Option Nat) :=
  (instructions.enum).foldl
    (fun labels pair =>
      match pair.2 with
      | .label l => labels.set l (some (pair.1 + 1))
      | _ => labels)
    (List.replicate 32 none)

/-- `run_single` (iter.rs): execute one instruction at `pc` and compute the
next program counter (`none` = the program halted). -/
def run_single (fuel : Nat) (st : Interpreter) (awatism : AwaTism)
    (labels : List (Option Nat)) (pc : Nat) :
    Option (Interpreter × Except RtError (Option Nat)) :=
  match Interpreter.next fuel st awatism with
  | none => none
  | some (st, .ok .next) => some (st, .ok (some (pc + 1)))
  | some (st, .ok .skipNext) => some (st, .ok (some (pc + 2)))
  | some (st, .ok .halt) => some (st, .ok none)
  | some (st, .ok (.label l)) =>
    match labels.getD l none with
    | none => some (st, .error (.unknownLabel l))
    | some nx => some (st, .ok (some nx))
  | some (st, .error e) => some (st, .error e)

/-- The fetch-dispatch loop driven by `Iter::next` (iter.rs): run until the
program counter leaves the program, an instruction halts, or an error
occurs.  `steps` bounds the number of iterations. -/
def runLoop (fuel steps : Nat) (st : Interpreter) (prog : List AwaTism)
    (labels : List (Option Nat)) (pc : Option Nat) :
    Option (Interpreter × Except RtError Unit) :=
  match steps with
  | 0 => none
  | steps + 1 =>
    match pc with
    | none => some (st, .ok ())
    | some pc =>
      match prog[pc]? with
      | none => some (st, .ok ())
      | some awatism =>
        match run_single fuel st awatism labels pc with
        | none => none
        | some (st, .error e) => some (st, .error e)
        | some (st, .ok pc) => runLoop fuel steps st prog labels pc

/-- Run a program from scratch on empty input, as `Interpreter::run` does. -/
def runProgram (fuel steps : Nat) (prog : List AwaTism) :
    Option (Interpreter × Except RtError Unit) :=
  runLoop fuel steps ⟨Abyss.new, [], ""⟩ prog (programLabels prog) (some 0)

/-! ### Observations

The observable content of an Abyss is what `consume` emits: collecting every
emitted value with an always-succeeding closure reads the top bubble's leaves
front-to-back. -/

/-- Collect the values emitted by `consume` of the top bubble. -/
def consumeCollect (fuel : Nat) (s : Abyss) :
    Option (Abyss × Except Unit (List Int × Bool)) :=
  s.consume fuel [] (fun acc v => .ok (acc ++ [v]))

/-- Emitted values only (dropping the final state). -/
def consumeEmits (fuel : Nat) (s : Abyss) : Option (Except Unit (List Int × Bool)) :=
  (consumeCollect fuel s).map (fun r => r.2)

/-- Collect the values emitted by the buffered wrapper's `consume`. -/
def bufferedEmits (fuel : Nat) (b : Buffered) :
    Option (Except Unit (List Int × Bool)) :=
  (Buffered.consume fuel b ([] : List Int) (fun acc v => .ok (acc ++ [v]))).map
    (fun r => r.2)

/-! ### Claims C1, C2, C9, C10 and the concrete parts of C4 and C8 -/

/-- C1 (code bug): `blow_awascii` is supposed to push one Double whose inner
chain, read front-to-back by `pop`/`consume`/`Display`, lists the characters
in source order (pushing `Single 0` for the empty string).  The fold in the
source stores the pair `(first created, last created)`, which under the
reversed iteration is `(tail, head)` of the built chain, while `pop`,
`consume` and `Display` all read a Double from the first component of
`inner`: for the two-character AwaSCII string "AB" (`[0, 32]`) consuming the
pushed bubble therefore emits only the value 32 (the 'B'), the 'A' node
being left unreachable — not the claimed `[0, 32]`.  The empty-string half of
the claim does hold. -/
theorem blow_awascii_emits_only_last_char :
    ((Abyss.new.blow_awascii [0, 32]).bind fun s => consumeEmits 100 s)
      = some (.ok ([32], true))
  ∧ ([32] : List Int) ≠ [0, 32]
  ∧ ((Abyss.new.blow_awascii []).bind fun s => consumeEmits 100 s)
      = some (.ok ([0], true)) := by
  refine ⟨by decide, by decide, by decide⟩

/-- C2 (code bug): `Buffered` is required to be observationally equal to the
unbuffered store, and in particular `count()` must push 0 for a Single top
bubble on both sides; but `Buffered::count` in `Singles` buffer mode pushes
`one()`.  After `blow(5); count()`, consuming the top bubble emits 1 through
the buffered wrapper and 0 through the bare linked store. -/
theorem buffered_count_pushes_one_not_zero :
    ((Buffered.new.blow 5).bind fun b =>
      (b.count 100).bind fun b => bufferedEmits 100 b)
      = some (.ok ([1], true))
  ∧ ((Abyss.new.blow 5).bind fun s =>
      (s.count 100).bind fun s => consumeEmits 100 s)
      = some (.ok ([0], true))
  ∧ (1 : Int) ≠ 0 := by
  refine ⟨by decide, by decide, by decide⟩

/-- C9 (code bug): an AwaSCII character is any 6-bit value (0..64), and
`TryFrom<u8>` accepts exactly the bytes below 64, but the checked constructor
`AwaSCII::new` rejects everything from 32 up: at `v = 32` it returns `None`
even though 32 < 64 and the `TryFrom` conversion succeeds. -/
theorem awascii_new_rejects_32 :
    AwaSCII.new 32 = none
  ∧ AwaSCII.tryFromU8 32 = .ok 32
  ∧ ¬((AwaSCII.new 32).isSome ↔ (32 : Nat) < 64) := by
  refine ⟨by decide, by decide, by decide⟩

set_option synthInstance.maxSize 512 in
set_option maxHeartbeats 1000000 in
/-- C10: each `u5` arithmetic operator is the `u8` operator masked to the low
five bits, i.e. exact arithmetic reduced modulo 32 (wrapping addition,
subtraction and multiplication; division and remainder are exact and only
defined for a non-zero divisor, where the `u8` operation panics), and no
result is ever 32 or more. -/
theorem u5_ops_are_mod_32 (a b : Nat) (ha : a < 32) (hb : b < 32) :
    u5.add a b = (a + b) % 32 ∧ u5.add a b < 32
  ∧ u5.sub a b = (((a : Int) - b) % 32).toNat ∧ u5.sub a b < 32
  ∧ u5.mul a b = (a * b) % 32 ∧ u5.mul a b < 32
  ∧ (b ≠ 0 → u5.div a b = some (a / b) ∧ a / b < 32
           ∧ u5.rem a b = some (a % b) ∧ a % b < 32) := by
  revert b hb
  revert a ha
  decide

/-- Witness for C10 at `a = 31`, `b = 3`. -/
theorem u5_ops_are_mod_32_witness :
    u5.add 31 3 = (31 + 3) % 32 ∧ u5.div 31 3 = some (31 / 3) :=
  ⟨(u5_ops_are_mod_32 31 3 (by decide) (by decide)).1,
   ((u5_ops_are_mod_32 31 3 (by decide) (by decide)).2.2.2.2.2.2 (by decide)).1⟩

/-- C4 counterexample: in the source, `combine_single`/`combine_double` apply
the operators as `op(top, second)`: after `blo 7  blo 2` the top Single holds
2 and the second 7, so `div` produces the Double `{2 tdiv 7, 2 tmod 7} =
{0, 2}` — not `{quotient 3, remainder 1}` as the claim (following spec §8 S6)
states for 7 divided by 2. -/
theorem divide_top_by_second_counterexample :
    ((Abyss.new.blow 7).bind fun s =>
      (s.blow 2).bind fun s =>
        (s.combine_double 100 Int.tdiv Int.tmod).bind fun s =>
          consumeEmits 100 s)
      = some (.ok ([0, 2], true))
  ∧ ([0, 2] : List Int) ≠ [3, 1] ∧ ([0, 2] : List Int) ≠ [1, 3] := by
  refine ⟨by decide, by decide, by decide⟩

/-- C4 amended: running `blo 7 blo 2 div pr1 trm` prints `0 2`: `Divide`
takes the top value (2) as the dividend and the second (7) as the divisor,
leaving a Double `{quotient = 0, remainder = 2}` that `PrintNum` emits
quotient-first. -/
theorem divide_program_prints_quotient_remainder :
    (runProgram 1000 100
        [.blow 7, .blow 2, .divide, .printNum, .terminate]).map
      (fun r => (r.1.output, r.2))
      = some ("0 2", .ok ()) := by
  decide

/-- C8 counterexample: on the input line "x\n" — non-empty but with no
leading ASCII digit — `ReadNum` does not fail with `NoNumber` as the claim
states: `parse_number_input` returns `Some(0)` at the first non-digit, so the
interpreter pushes a Single 0 and continues. -/
theorem readnum_no_digit_pushes_zero :
    Interpreter.next 100 ⟨Abyss.new, [['x', '\n']], ""⟩ .readNum
      = some (⟨⟨⟨[.occupied (.single 0 none)], none⟩, some 0⟩, [], ""⟩, .ok .next)
  ∧ (Interpreter.next 100 ⟨Abyss.new, [['x', '\n']], ""⟩ .readNum).map
      (fun r => r.2) ≠ some (.error .noNumber) := by
  refine ⟨by decide, by decide⟩

/-! ### Abstraction: bubbles as trees

To state the general claims, a reachable Abyss state is related to the list
of trees its top-level chain spells out.  `IsTreeAt arena i t used next` says
the bubble at slot `i` represents the tree `t`, occupies exactly the slots
`used` (no slot twice) and its `next` pointer is `next`; `IsSeg` describes a
non-empty segment of siblings whose last node carries the given `next`
pointer; a Double's inner chain is a segment ending in `none` whose last node
is the cached `last` index. -/

inductive Tree where
  | leaf (value : Int)
  | node (children : List Tree)

mutual

/-- Leaf values of a tree in depth-first, front-to-back order. -/
def Tree.leaves : Tree → List Int
  | .leaf value => [value]
  | .node children => leavesList children

def leavesList : List Tree → List Int
  | [] => []
  | t :: ts => t.leaves ++ leavesList ts

end

mutual

/-- Fuel sufficient for `consumeInner` on a bubble representing `t`. -/
def Tree.fuelNeeded : Tree → Nat
  | .leaf _ => 1
  | .node children => 1 + fuelList children

/-- Fuel sufficient for `consumeLoop` on a segment representing `ts`. -/
def fuelList : List Tree → Nat
  | [] => 1
  | t :: ts => 1 + t.fuelNeeded + fuelList ts

end

mutual

inductive IsTreeAt : Arena → Nat → Tree → List Nat → Option Nat → Prop where
  | single {arena : Arena} {index : Nat} {value : Int} {next : Option Nat} :
      arena.get index = some (.single value next) →
      IsTreeAt arena index (.leaf value) [index] next
  | double {arena : Arena} {index first last : Nat} {next : Option Nat}
      {ts : List Tree} {used : List Nat} :
      arena.get index = some (.double first last next) →
      IsSeg arena first last ts used none →
      index ∉ used →
      IsTreeAt arena index (.node ts) (index :: used) next

inductive IsSeg : Arena → Nat → Nat → List Tree → List Nat → Option Nat → Prop where
  | one {arena : Arena} {first : Nat} {t : Tree} {used : List Nat}
      {next : Option Nat} :
      IsTreeAt arena first t used next →
      IsSeg arena first first [t] used next
  | cons {arena : Arena} {first nx last : Nat} {t : Tree} {ts : List Tree}
      {used usedRest : List Nat} {next : Option Nat} :
      IsTreeAt arena first t used (some nx) →
      IsSeg arena nx last ts usedRest next →
      used.Disjoint usedRest →
      IsSeg arena first last (t :: ts) (used ++ usedRest) next

end

/-- The top-level chain of an Abyss state as a list of trees. -/
inductive IsChain : Arena → Option Nat → List Tree → List Nat → Prop where
  | nil {arena : Arena} : IsChain arena none [] []
  | cons {arena : Arena} {index : Nat} {t : Tree} {ts : List Tree}
      {used usedRest : List Nat} {next : Option Nat} :
      IsTreeAt arena index t used next →
      IsChain arena next ts usedRest →
      used.Disjoint usedRest →
      IsChain arena (some index) (t :: ts) (used ++ usedRest)

/-- Well-formed free list: the chain of free slots from `freeHead` visits
pairwise distinct `free` entries. -/
inductive FreeList (heap : List Entry) : Option Nat → List Nat → Prop where
  | nil : FreeList heap none []
  | cons {i : Nat} {next : Option Nat} {rest : List Nat} :
      heap[i]? = some (.free next) →
      FreeList heap next rest →
      i ∉ rest →
      FreeList heap (some i) (i :: rest)

/-- The arena's free list is well formed. -/
def FreeListOk (a : Arena) : Prop := ∃ fl, FreeList a.heap a.freeHead fl

theorem FreeList.mem_free {heap : List Entry} {h : Option Nat} {fl : List Nat}
    (hfl : FreeList heap h fl) :
    ∀ j ∈ fl, ∃ nx, heap[j]? = some (.free nx) := by
  induction hfl with
  | nil => intro j hj; cases hj
  | cons hget _ _ ih =>
    intro j hj
    rcases List.mem_cons.mp hj with rfl | hj
    · exact ⟨_, hget⟩
    · exact ih j hj

theorem FreeList.frame_free {heap heap2 : List Entry} {h : Option Nat}
    {fl : List Nat} (hfl : FreeList heap h fl)
    (hsame : ∀ j ∈ fl, heap2[j]? = heap[j]?) : FreeList heap2 h fl := by
  induction hfl with
  | nil => exact .nil
  | cons hget hrest hnotmem ih =>
    refine .cons ?_ (ih fun j hj => hsame j (List.mem_cons_of_mem _ hj)) hnotmem
    rw [hsame _ (List.mem_cons_self _ _)]
    exact hget

/-! ### Behaviour of the arena operations on well-formed states -/

theorem Arena.get_eq_some {a : Arena} {i : Nat} {b : Bubble} :
    a.get i = some b ↔ a.heap[i]? = some (.occupied b) := by
  unfold get
  split
  · next hcase => rw [hcase]; simp
  · next hcase =>
    constructor
    · intro h; cases h
    · intro h
      exfalso
      exact hcase _ h

theorem Arena.get_lt {a : Arena} {i : Nat} {b : Bubble}
    (hget : a.get i = some b) : i < a.heap.length := by
  have hmem := Arena.get_eq_some.mp hget
  by_contra hge
  rw [List.getElem?_eq_none (Nat.le_of_not_lt hge)] at hmem
  cases hmem

theorem Arena.insert_spec (a : Arena) (v : Bubble) (hfree : FreeListOk a) :
    (a.insert v).1.get (a.insert v).2 = some v ∧
    a.get (a.insert v).2 = none ∧
    (∀ j, j ≠ (a.insert v).2 → (a.insert v).1.get j = a.get j) ∧
    FreeListOk (a.insert v).1 := by
  obtain ⟨fl, hfl⟩ := hfree
  cases hhead : a.freeHead with
  | some i =>
    rw [hhead] at hfl
    cases hfl with
    | cons hget hrest hnotmem =>
      rename_i nf rest
      have hlt : i < a.heap.length := by
        by_contra hge
        rw [List.getElem?_eq_none (Nat.le_of_not_lt hge)] at hget
        cases hget
      have hins : a.insert v = (⟨a.heap.set i (.occupied v), nf⟩, i) := by
        unfold insert
        simp only [hhead, hget]
      rw [hins]
      refine ⟨?_, ?_, ?_, ?_⟩
      · rw [Arena.get_eq_some]
        exact List.getElem?_set_self hlt
      · unfold get
        rw [hget]
      · intro j hj
        unfold get
        simp only
        rw [List.getElem?_set_ne (fun hh => hj hh.symm)]
      · refine ⟨rest, hrest.frame_free fun j hj => ?_⟩
        refine List.getElem?_set_ne (fun hh => hnotmem ?_)
        rw [hh]
        exact hj
  | none =>
    have hins : a.insert v = (⟨a.heap ++ [.occupied v], none⟩, a.heap.length) := by
      unfold insert
      simp only [hhead]
    rw [hins]
    refine ⟨?_, ?_, ?_, ?_⟩
    · rw [Arena.get_eq_some]
      exact List.getElem?_concat_length _ _
    · unfold get
      rw [List.getElem?_eq_none (Nat.le_refl _)]
    · intro j hj
      unfold get
      simp only
      rcases Nat.lt_or_ge j a.heap.length with hlt | hge
      · rw [List.getElem?_append_left hlt]
      · have hgt : a.heap.length < j := Nat.lt_of_le_of_ne hge (fun hh => hj hh.symm)
        rw [List.getElem?_eq_none (l := a.heap) hge,
          List.getElem?_eq_none (by simpa using hgt)]
    · exact ⟨[], .nil⟩

theorem Arena.remove_spec {a : Arena} {i : Nat} {b : Bubble}
    (hfree : FreeListOk a) (hget : a.get i = some b) :
    a.remove i = (⟨a.heap.set i (.free a.freeHead), some i⟩, some b) ∧
    (⟨a.heap.set i (.free a.freeHead), some i⟩ : Arena).get i = none ∧
    (∀ j, j ≠ i →
      (⟨a.heap.set i (.free a.freeHead), some i⟩ : Arena).get j = a.get j) ∧
    FreeListOk (⟨a.heap.set i (.free a.freeHead), some i⟩ : Arena) := by
  obtain ⟨fl, hfl⟩ := hfree
  have hmem := Arena.get_eq_some.mp hget
  have hlt : i < a.heap.length := Arena.get_lt hget
  have hrm : a.remove i = (⟨a.heap.set i (.free a.freeHead), some i⟩, some b) := by
    unfold remove
    simp only [hmem]
  refine ⟨hrm, ?_, ?_, ?_⟩
  · unfold get
    simp only
    rw [List.getElem?_set_self hlt]
  · intro j hj
    unfold get
    simp only
    rw [List.getElem?_set_ne (fun hh => hj hh.symm)]
  · have hnot : i ∉ fl := by
      intro hmemfl
      obtain ⟨nx, hnx⟩ := hfl.mem_free i hmemfl
      rw [hmem] at hnx
      simp at hnx
    have hslot : (a.heap.set i (Entry.free a.freeHead))[i]? = some (.free a.freeHead) :=
      List.getElem?_set_self hlt
    have hrest : FreeList (a.heap.set i (Entry.free a.freeHead)) a.freeHead fl := by
      refine hfl.frame_free fun j hj => ?_
      refine List.getElem?_set_ne (fun hh => hnot ?_)
      rw [hh]
      exact hj
    exact ⟨i :: fl, FreeList.cons hslot hrest hnot⟩

theorem Arena.setNext_spec {a : Arena} {i : Nat} {b : Bubble} (nx : Option Nat)
    (hget : a.get i = some b) :
    (a.setNext i nx).get i = some (b.withNext nx) ∧
    (∀ j, j ≠ i → (a.setNext i nx).get j = a.get j) ∧
    (a.setNext i nx).freeHead = a.freeHead ∧
    (FreeListOk a → FreeListOk (a.setNext i nx)) := by
  have hmem := Arena.get_eq_some.mp hget
  have hlt : i < a.heap.length := Arena.get_lt hget
  have hs : a.setNext i nx = ⟨a.heap.set i (.occupied (b.withNext nx)), a.freeHead⟩ := by
    unfold setNext
    rw [hget]
  rw [hs]
  refine ⟨?_, ?_, rfl, ?_⟩
  · rw [Arena.get_eq_some]
    exact List.getElem?_set_self hlt
  · intro j hj
    unfold get
    simp only
    rw [List.getElem?_set_ne (fun hh => hj hh.symm)]
  · rintro ⟨fl, hfl⟩
    refine ⟨fl, hfl.frame_free fun j hj => ?_⟩
    obtain ⟨nx2, hnx2⟩ := hfl.mem_free j hj
    refine List.getElem?_set_ne (fun hh => ?_)
    rw [← hh, hmem] at hnx2
    simp at hnx2

theorem Arena.setValue_spec {a : Arena} {i : Nat} {value0 : Int}
    {next : Option Nat} (value : Int)
    (hget : a.get i = some (.single value0 next)) :
    (a.setValue i value).get i = some (.single value next) ∧
    (∀ j, j ≠ i → (a.setValue i value).get j = a.get j) ∧
    (FreeListOk a → FreeListOk (a.setValue i value)) := by
  have hmem := Arena.get_eq_some.mp hget
  have hlt : i < a.heap.length := Arena.get_lt hget
  have hs : a.setValue i value
      = ⟨a.heap.set i (.occupied (.single value next)), a.freeHead⟩ := by
    unfold setValue
    rw [hget]
  rw [hs]
  refine ⟨?_, ?_, ?_⟩
  · rw [Arena.get_eq_some]
    exact List.getElem?_set_self hlt
  · intro j hj
    unfold get
    simp only
    rw [List.getElem?_set_ne (fun hh => hj hh.symm)]
  · rintro ⟨fl, hfl⟩
    refine ⟨fl, hfl.frame_free fun j hj => ?_⟩
    obtain ⟨nx2, hnx2⟩ := hfl.mem_free j hj
    refine List.getElem?_set_ne (fun hh => ?_)
    rw [← hh, hmem] at hnx2
    simp at hnx2

mutual

/-- Representation only depends on `get` at the used slots. -/
theorem IsTreeAt.frame_at {arena arena2 : Arena} {i : Nat} {t : Tree}
    {used : List Nat} {nx : Option Nat}
    (h : IsTreeAt arena i t used nx)
    (hsame : ∀ j ∈ used, arena2.get j = arena.get j) :
    IsTreeAt arena2 i t used nx :=
  match h with
  | .single hget => .single ((hsame _ (by simp)).trans hget)
  | .double hget hinner hnotmem =>
    .double ((hsame _ (by simp)).trans hget)
      (hinner.frame_seg fun j hj => hsame j (by simp [hj]))
      hnotmem

theorem IsSeg.frame_seg {arena arena2 : Arena} {first last : Nat} {ts : List Tree}
    {used : List Nat} {nx : Option Nat}
    (h : IsSeg arena first last ts used nx)
    (hsame : ∀ j ∈ used, arena2.get j = arena.get j) :
    IsSeg arena2 first last ts used nx :=
  match h with
  | .one ht => .one (ht.frame_at hsame)
  | .cons ht hrest hdisj =>
    .cons (ht.frame_at fun j hj => hsame j (List.mem_append_left _ hj))
      (hrest.frame_seg fun j hj => hsame j (List.mem_append_right _ hj))
      hdisj

end

theorem IsChain.frame_chain {arena arena2 : Arena} {top : Option Nat}
    {ts : List Tree} {used : List Nat}
    (h : IsChain arena top ts used)
    (hsame : ∀ j ∈ used, arena2.get j = arena.get j) :
    IsChain arena2 top ts used := by
  induction h with
  | nil => exact .nil
  | cons ht hrest hdisj ih =>
    exact .cons (ht.frame_at fun j hj => hsame j (List.mem_append_left _ hj))
      (ih fun j hj => hsame j (List.mem_append_right _ hj))
      hdisj

mutual

/-- Every used slot of a represented tree is occupied. -/
theorem IsTreeAt.mem_get_at {arena : Arena} {i : Nat} {t : Tree}
    {used : List Nat} {nx : Option Nat}
    (h : IsTreeAt arena i t used nx) :
    ∀ j ∈ used, ∃ b, arena.get j = some b :=
  match h with
  | .single hget => by
    intro j hj
    rw [List.mem_singleton] at hj
    exact ⟨_, hj ▸ hget⟩
  | .double hget hinner _ => by
    intro j hj
    rcases List.mem_cons.mp hj with rfl | hj
    · exact ⟨_, hget⟩
    · exact hinner.mem_get_seg j hj

theorem IsSeg.mem_get_seg {arena : Arena} {first last : Nat} {ts : List Tree}
    {used : List Nat} {nx : Option Nat}
    (h : IsSeg arena first last ts used nx) :
    ∀ j ∈ used, ∃ b, arena.get j = some b :=
  match h with
  | .one ht => ht.mem_get_at
  | .cons ht hrest _ => by
    intro j hj
    rcases List.mem_append.mp hj with hj | hj
    · exact ht.mem_get_at j hj
    · exact hrest.mem_get_seg j hj

end

theorem IsChain.mem_get_chain {arena : Arena} {top : Option Nat}
    {ts : List Tree} {used : List Nat}
    (h : IsChain arena top ts used) :
    ∀ j ∈ used, ∃ b, arena.get j = some b := by
  induction h with
  | nil => intro j hj; cases hj
  | cons ht _ _ ih =>
    intro j hj
    rcases List.mem_append.mp hj with hj | hj
    · exact ht.mem_get_at j hj
    · exact ih j hj

/-- The root of a represented tree is among its used slots. -/
theorem IsTreeAt.mem_self {arena : Arena} {i : Nat} {t : Tree}
    {used : List Nat} {nx : Option Nat}
    (h : IsTreeAt arena i t used nx) : i ∈ used := by
  cases h with
  | single _ => simp
  | double _ _ _ => simp

/-- The root bubble of a represented tree exists and points at `nx`. -/
theorem IsTreeAt.get_next {arena : Arena} {i : Nat} {t : Tree}
    {used : List Nat} {nx : Option Nat}
    (h : IsTreeAt arena i t used nx) :
    ∃ b, arena.get i = some b ∧ b.next = nx := by
  cases h with
  | single hget => exact ⟨_, hget, rfl⟩
  | double hget _ _ => exact ⟨_, hget, rfl⟩

/-- The head of a represented segment is among its used slots. -/
theorem IsSeg.mem_first {arena : Arena} {first last : Nat} {ts : List Tree}
    {used : List Nat} {nx : Option Nat}
    (h : IsSeg arena first last ts used nx) : first ∈ used := by
  cases h with
  | one ht => exact ht.mem_self
  | cons ht _ _ => exact List.mem_append_left _ ht.mem_self

theorem Arena.setInner_spec {a : Arena} {i : Nat} {f0 l0 : Nat}
    {next : Option Nat} (f1 l1 : Nat)
    (hget : a.get i = some (.double f0 l0 next)) :
    (a.setInner i f1 l1).get i = some (.double f1 l1 next) ∧
    (∀ j, j ≠ i → (a.setInner i f1 l1).get j = a.get j) ∧
    (FreeListOk a → FreeListOk (a.setInner i f1 l1)) := by
  have hmem := Arena.get_eq_some.mp hget
  have hlt : i < a.heap.length := Arena.get_lt hget
  have hs : a.setInner i f1 l1
      = ⟨a.heap.set i (.occupied (.double f1 l1 next)), a.freeHead⟩ := by
    unfold setInner
    rw [hget]
  rw [hs]
  refine ⟨?_, ?_, ?_⟩
  · rw [Arena.get_eq_some]
    exact List.getElem?_set_self hlt
  · intro j hj
    unfold get
    simp only
    rw [List.getElem?_set_ne (fun hh => hj hh.symm)]
  · rintro ⟨fl, hfl⟩
    refine ⟨fl, hfl.frame_free fun j hj => ?_⟩
    obtain ⟨nx2, hnx2⟩ := hfl.mem_free j hj
    refine List.getElem?_set_ne (fun hh => ?_)
    rw [← hh, hmem] at hnx2
    simp at hnx2

/-! ### Claim C5: behaviour of `test` -/

/-- When the top two chain elements are Singles, `test` applies the
predicate to (top value, second value) and touches nothing. -/
theorem test_two_singles {arena : Arena} {top : Option Nat} {a b : Int}
    {rest : List Tree} {used : List Nat} (pred : Int → Int → Bool)
    (h : IsChain arena top (.leaf a :: .leaf b :: rest) used) :
    Abyss.test ⟨arena, top⟩ pred = some (pred a b) := by
  cases h with
  | cons ht hrest hdisj =>
    cases ht with
    | single hget =>
      cases hrest with
      | cons ht2 hrest2 hdisj2 =>
        cases ht2 with
        | single hget2 =>
          simp [Abyss.test, Option.bind, hget, hget2]

/-- C5 (amended): `test(pred)` returns the sentinel `None` exactly when the
chain is empty or holds exactly one Single bubble — a lone Double on top
yields `Some(false)` even though fewer than two bubbles are present, as does
any Double in the top two positions; when the top two bubbles are Singles it
returns `Some(pred(top, second))`.  The operation reads only through
`Arena.get` and never mutates the Abyss (its embedding is a pure function of
the state). -/
theorem test_sentinel_characterisation {arena : Arena} {top : Option Nat}
    {ts : List Tree} {used : List Nat} (pred : Int → Int → Bool)
    (h : IsChain arena top ts used) :
    (Abyss.test ⟨arena, top⟩ pred = none ↔
      ts = [] ∨ ∃ v, ts = [Tree.leaf v]) ∧
    (∀ v w rest, ts = Tree.leaf v :: Tree.leaf w :: rest →
      Abyss.test ⟨arena, top⟩ pred = some (pred v w)) ∧
    (∀ cs rest, ts = Tree.node cs :: rest →
      Abyss.test ⟨arena, top⟩ pred = some false) ∧
    (∀ v cs rest, ts = Tree.leaf v :: Tree.node cs :: rest →
      Abyss.test ⟨arena, top⟩ pred = some false) := by
  refine ⟨?_, ?_, ?_, ?_⟩
  · cases h with
    | nil => simp [Abyss.test]
    | cons ht hrest hdisj =>
      rename_i index t ts' used1 used2 nx
      cases ht with
      | single hget =>
        rename_i v
        cases hrest with
        | nil =>
          simp [Abyss.test, Option.bind, hget]
        | cons ht2 hrest2 hdisj2 =>
          cases ht2 with
          | single hget2 =>
            simp [Abyss.test, Option.bind, hget, hget2]
          | double hget2 hinner2 hnm2 =>
            simp [Abyss.test, Option.bind, hget, hget2]
      | double hget hinner hnm =>
        simp [Abyss.test, Option.bind, hget]
  · intro v w rest hts
    subst hts
    exact test_two_singles pred h
  · intro cs rest hts
    subst hts
    cases h with
    | cons ht hrest hdisj =>
      cases ht with
      | double hget hinner hnm =>
        simp [Abyss.test, Option.bind, hget]
  · intro v cs rest hts
    subst hts
    cases h with
    | cons ht hrest hdisj =>
      cases ht with
      | single hget =>
        cases hrest with
        | cons ht2 hrest2 hdisj2 =>
          cases ht2 with
          | double hget2 hinner2 hnm2 =>
            simp [Abyss.test, Option.bind, hget, hget2]

/-- A two-Single arena (the state after `blow 2; blow 1`), used by witnesses. -/
def twoSinglesArena : Arena :=
  ⟨[.occupied (.single 2 none), .occupied (.single 1 (some 0))], none⟩

theorem twoSinglesArena_chain :
    IsChain twoSinglesArena (some 1) [Tree.leaf 1, Tree.leaf 2] [1, 0] := by
  have ht2 : IsTreeAt twoSinglesArena 0 (Tree.leaf 2) [0] none := .single (by decide)
  have ht1 : IsTreeAt twoSinglesArena 1 (Tree.leaf 1) [1] (some 0) := .single (by decide)
  have hc0 : IsChain twoSinglesArena (some 0) [Tree.leaf 2] [0] := by
    have hh := IsChain.cons ht2 IsChain.nil (by simp)
    simpa using hh
  have hh := IsChain.cons ht1 hc0 (by simp)
  simpa using hh

/-- The state produced by `blow 1; blow 2; merge`: a single Double bubble on
the chain. -/
def loneDoubleState : Abyss :=
  ⟨⟨[.occupied (.single 1 none), .occupied (.single 2 (some 0)),
     .occupied (.double 1 0 none)], none⟩, some 2⟩

theorem loneDoubleState_chain :
    IsChain loneDoubleState.arena loneDoubleState.top
      [Tree.node [Tree.leaf 2, Tree.leaf 1]] [2, 1, 0] := by
  have ht0 : IsTreeAt loneDoubleState.arena 0 (Tree.leaf 1) [0] none :=
    .single (by decide)
  have ht1 : IsTreeAt loneDoubleState.arena 1 (Tree.leaf 2) [1] (some 0) :=
    .single (by decide)
  have hseg : IsSeg loneDoubleState.arena 1 0 [Tree.leaf 2, Tree.leaf 1] [1, 0] none := by
    have hh := IsSeg.cons ht1 (IsSeg.one ht0) (by simp)
    simpa using hh
  have ht2 : IsTreeAt loneDoubleState.arena 2
      (Tree.node [Tree.leaf 2, Tree.leaf 1]) [2, 1, 0] none :=
    .double (by decide) hseg (by simp)
  have hh := IsChain.cons ht2 IsChain.nil (by simp)
  simpa using hh

/-- Witness for C5 on the concrete chain built by `blow 2; blow 1`
(top Single 1 over Single 2). -/
theorem test_sentinel_characterisation_witness :
    Abyss.test ⟨twoSinglesArena, some 1⟩ (fun a b => decide (a < b))
      = some (decide ((1 : Int) < 2))
  ∧ Abyss.test loneDoubleState (fun a b => decide (a < b)) = some false :=
  ⟨(test_sentinel_characterisation _ twoSinglesArena_chain).2.1 1 2 [] rfl,
   (test_sentinel_characterisation _ loneDoubleState_chain).2.2.1
     [Tree.leaf 2, Tree.leaf 1] [] rfl⟩

/-- C5 counterexample: after `blow 1; blow 2; merge` the top-level chain holds
exactly one bubble (a Double), yet `test` returns `Some(false)` instead of the
sentinel `None` the claim requires for a chain of fewer than two bubbles. -/
theorem test_lone_double_counterexample :
    ((Abyss.new.blow 1).bind fun s => (s.blow 2).bind fun s => s.merge)
      = some loneDoubleState
  ∧ IsChain loneDoubleState.arena loneDoubleState.top
      [Tree.node [Tree.leaf 2, Tree.leaf 1]] [2, 1, 0]
  ∧ Abyss.test loneDoubleState (fun a b => decide (a = b)) = some false
  ∧ Abyss.test loneDoubleState (fun a b => decide (a = b)) ≠ none :=
  ⟨by decide, loneDoubleState_chain, by decide, by decide⟩

/-! ### Claim C6: comparison instructions -/

/-- C6: executing `EqualTo`, `LessThan` or `GreaterThan` at program counter
`pc` with two Singles on top continues at `pc + 1` when the comparison of the
top value `a` against the second value `b` holds and at `pc + 2` (skipping
the next instruction) when it does not, and the whole interpreter state —
in particular the two tested bubbles — is left unchanged. -/
theorem comparisons_fall_through_or_skip {arena : Arena} {top : Option Nat}
    {a b : Int} {rest : List Tree} {used : List Nat}
    (fuel : Nat) (inp : List (List Char)) (out : String)
    (labels : List (Option Nat)) (pc : Nat)
    (h : IsChain arena top (.leaf a :: .leaf b :: rest) used) :
    run_single fuel ⟨⟨arena, top⟩, inp, out⟩ .equalTo labels pc
      = some (⟨⟨arena, top⟩, inp, out⟩,
              .ok (some (if a = b then pc + 1 else pc + 2)))
  ∧ run_single fuel ⟨⟨arena, top⟩, inp, out⟩ .lessThan labels pc
      = some (⟨⟨arena, top⟩, inp, out⟩,
              .ok (some (if a < b then pc + 1 else pc + 2)))
  ∧ run_single fuel ⟨⟨arena, top⟩, inp, out⟩ .greaterThan labels pc
      = some (⟨⟨arena, top⟩, inp, out⟩,
              .ok (some (if a > b then pc + 1 else pc + 2))) := by
  have heq := test_two_singles (fun x y => decide (x = y)) h
  have hlt := test_two_singles (fun x y => decide (x < y)) h
  have hgt := test_two_singles (fun x y => decide (x > y)) h
  refine ⟨?_, ?_, ?_⟩
  · simp only [run_single, Interpreter.next, heq]
    by_cases hc : a = b <;> simp [hc]
  · simp only [run_single, Interpreter.next, hlt]
    by_cases hc : a < b <;> simp [hc]
  · simp only [run_single, Interpreter.next, hgt]
    by_cases hc : a > b <;> simp [hc]

/-- Witness for C6 on the two-Single chain (top 1, second 2) at `pc = 5`. -/
theorem comparisons_fall_through_or_skip_witness :
    run_single 10 ⟨⟨twoSinglesArena, some 1⟩, [], ""⟩ .lessThan [] 5
      = some (⟨⟨twoSinglesArena, some 1⟩, [], ""⟩,
              .ok (some (if (1 : Int) < 2 then 5 + 1 else 5 + 2))) :=
  (comparisons_fall_through_or_skip 10 [] "" [] 5 twoSinglesArena_chain).2.1

/-! ### Claim C7: segment lemmas for `surround` -/

theorem IsSeg.mem_last {arena : Arena} {first last : Nat} {ts : List Tree}
    {used : List Nat} {nx : Option Nat}
    (h : IsSeg arena first last ts used nx) : last ∈ used :=
  match h with
  | .one ht => ht.mem_self
  | .cons _ hrest _ => List.mem_append_right _ hrest.mem_last

theorem IsSeg.length_pos {arena : Arena} {first last : Nat} {ts : List Tree}
    {used : List Nat} {nx : Option Nat}
    (h : IsSeg arena first last ts used nx) : 0 < ts.length := by
  cases h with
  | one ht => simp
  | cons ht hrest hdisj => simp

/-- The last node of a segment carries the segment's `next` pointer. -/
theorem IsSeg.getNext_last {arena : Arena} {first last : Nat} {ts : List Tree}
    {used : List Nat} {nx : Option Nat}
    (h : IsSeg arena first last ts used nx) : arena.getNext last = nx :=
  match h with
  | .one ht => by
    obtain ⟨b, hget, hnext⟩ := ht.get_next
    unfold Arena.getNext
    rw [hget]
    exact hnext
  | .cons _ hrest _ => hrest.getNext_last

/-- Rewriting the `next` pointer at the root of a represented tree. -/
theorem IsTreeAt.setNext_self {arena : Arena} {i : Nat} {t : Tree}
    {used : List Nat} {nx0 : Option Nat} (nx1 : Option Nat)
    (h : IsTreeAt arena i t used nx0) :
    IsTreeAt (arena.setNext i nx1) i t used nx1 := by
  cases h with
  | single hget =>
    have hs := Arena.setNext_spec nx1 hget
    exact .single hs.1
  | double hget hinner hnotmem =>
    have hs := Arena.setNext_spec nx1 hget
    refine .double hs.1 (hinner.frame_seg fun j hj => ?_) hnotmem
    exact hs.2.1 j (fun hh => hnotmem (hh ▸ hj))

/-- Rewriting the `next` pointer at the last node of a segment retargets the
whole segment. -/
theorem IsSeg.retarget {arena : Arena} {first last : Nat} {ts : List Tree}
    {used : List Nat} {nx0 : Option Nat} (nx1 : Option Nat)
    (h : IsSeg arena first last ts used nx0) :
    IsSeg (arena.setNext last nx1) first last ts used nx1 :=
  match h with
  | .one ht => .one (ht.setNext_self nx1)
  | .cons ht hrest hdisj => by
    have hih := hrest.retarget nx1
    have hlastmem := hrest.mem_last
    obtain ⟨bl, hbl⟩ := hrest.mem_get_seg _ hlastmem
    have hs := Arena.setNext_spec nx1 hbl
    refine .cons (ht.frame_at fun j hj => ?_) hih hdisj
    exact hs.2.1 j (fun hh => hdisj hj (hh ▸ hlastmem))

/-- A non-empty top-level chain is a segment ending in `none`. -/
theorem IsChain.to_seg {arena : Arena} {i : Nat} {ts : List Tree}
    {used : List Nat} (h : IsChain arena (some i) ts used) :
    ∃ z, IsSeg arena i z ts used none := by
  generalize href : (some i : Option Nat) = ref at h
  induction h generalizing i with
  | nil => cases href
  | cons ht hrest hdisj ih =>
    cases href
    rename_i index t ts' used1 used2 next
    cases hrest with
    | nil => exact ⟨index, by simpa using IsSeg.one ht⟩
    | cons ht2 hrest2 hdisj2 =>
      obtain ⟨z, hseg⟩ := ih rfl
      exact ⟨z, .cons ht hseg hdisj⟩

/-- Conversely, a segment ending in `none` is a top-level chain. -/
theorem IsSeg.to_chain {arena : Arena} {i z : Nat} {ts : List Tree}
    {used : List Nat} (h : IsSeg arena i z ts used none) :
    IsChain arena (some i) ts used :=
  match h with
  | .one ht => by simpa using IsChain.cons ht .nil (by simp)
  | .cons ht hrest hdisj => .cons ht hrest.to_chain hdisj

theorem moveNext_succ {arena : Arena} {first nxt : Nat} (m : Nat)
    (hn : arena.getNext first = some nxt) :
    moveNext arena first (m + 1) =
      ((moveNext arena nxt m).1, (moveNext arena nxt m).2 + 1) := by
  conv_lhs => rw [moveNext]
  rw [hn]

theorem moveNext_stop {arena : Arena} {first : Nat} (m : Nat)
    (hn : arena.getNext first = none) :
    moveNext arena first (m + 1) = (first, 0) := by
  conv_lhs => rw [moveNext]
  rw [hn]

/-- Walking `m` steps from the head of a segment ending in `none` reaches its
`m`-th node (splitting the segment) or stops at its last node. -/
theorem IsSeg.split {arena : Arena} {first z : Nat} {ts : List Tree}
    {used : List Nat} (h : IsSeg arena first z ts used none) (m : Nat) :
    (m + 1 < ts.length →
      ∃ last nx usedPre usedSuf,
        moveNext arena first m = (last, m) ∧
        IsSeg arena first last (ts.take (m + 1)) usedPre (some nx) ∧
        IsSeg arena nx z (ts.drop (m + 1)) usedSuf none ∧
        used = usedPre ++ usedSuf ∧ usedPre.Disjoint usedSuf) ∧
    (ts.length ≤ m + 1 → moveNext arena first m = (z, ts.length - 1)) :=
  match m, h with
  | 0, .one _ => by
    constructor
    · intro hlt
      simp at hlt
    · intro _
      rfl
  | m + 1, .one ht => by
    constructor
    · intro hlt
      simp at hlt
    · intro _
      obtain ⟨b, hget, hnext⟩ := ht.get_next
      have hn : arena.getNext first = none := by
        unfold Arena.getNext
        rw [hget]
        exact hnext
      rw [moveNext_stop m hn]
      simp
  | 0, @IsSeg.cons _ _ nxt _ t0 ts' used1 usedRest _ ht hrest hdisj => by
    constructor
    · intro _
      exact ⟨first, nxt, used1, usedRest, rfl, .one ht, hrest, rfl, hdisj⟩
    · intro hge
      have hpos := hrest.length_pos
      simp only [List.length_cons] at hge
      omega
  | m + 1, @IsSeg.cons _ _ nxt _ t0 ts' used1 usedRest _ ht hrest hdisj => by
    obtain ⟨b, hget, hnext⟩ := ht.get_next
    have hn : arena.getNext first = some nxt := by
      unfold Arena.getNext
      rw [hget]
      exact hnext
    have hih := hrest.split m
    constructor
    · intro hlt
      have hlt' : m + 1 < ts'.length := by
        simp only [List.length_cons] at hlt
        omega
      obtain ⟨last, nx, pre, suf, hmv, hpre, hsuf, hused, hd2⟩ := hih.1 hlt'
      have hd1pre : used1.Disjoint pre := fun x hx hx2 =>
        hdisj hx (hused ▸ List.mem_append_left _ hx2)
      have hd1suf : used1.Disjoint suf := fun x hx hx2 =>
        hdisj hx (hused ▸ List.mem_append_right _ hx2)
      refine ⟨last, nx, used1 ++ pre, suf, ?_, ?_, ?_, ?_, ?_⟩
      · rw [moveNext_succ m hn, hmv]
      · simpa using IsSeg.cons ht hpre hd1pre
      · simpa using hsuf
      · rw [hused, List.append_assoc]
      · intro x hx hx2
        rcases List.mem_append.mp hx with hx | hx
        · exact hd1suf hx hx2
        · exact hd2 hx hx2
    · intro hge
      have hge' : ts'.length ≤ m + 1 := by
        simp only [List.length_cons] at hge
        omega
      have hpos := hrest.length_pos
      rw [moveNext_succ m hn, hih.2 hge']
      simp only [List.length_cons]
      congr 1
      omega

/-- Computation shape of `surround` on a non-empty chain. -/
theorem Abyss.surround_eq_of {arena : Arena} {first last : Nat} {steps : Nat}
    {k : Nat} (hk : k ≠ 0)
    (hmv : moveNext arena first (k - 1) = (last, steps)) :
    Abyss.surround ⟨arena, some first⟩ k =
      some ⟨((arena.setNext last none).insert
              (.double first last (arena.getNext last))).1,
            some ((arena.setNext last none).insert
              (.double first last (arena.getNext last))).2⟩ := by
  unfold Abyss.surround
  rw [if_neg hk]
  show (Option.bind (some first) _) = _
  rw [Option.some_bind]
  rw [hmv]

/-- C7 (amended): `surround(k)` with `k = 0` is a no-op; with `0 < k ≤ chain
length` it wraps the top `k` nodes into one Double preserving their order;
when `k` exceeds the length of a non-empty chain it wraps the entire chain
and still succeeds (`moveNext` stops at the end of the chain); the sentinel
`None` — surfaced by the interpreter as `NotEnoughBubbles(k)` — is returned
only when the chain is empty and `k > 0`, in which case nothing is
mutated. -/
theorem surround_wraps_min_k_len {arena : Arena} {top : Option Nat}
    {ts : List Tree} {used : List Nat} (k : Nat)
    (hfree : FreeListOk arena) (hchain : IsChain arena top ts used) :
    (k = 0 → Abyss.surround ⟨arena, top⟩ k = some ⟨arena, top⟩) ∧
    (0 < k → ts = [] → Abyss.surround ⟨arena, top⟩ k = none) ∧
    (0 < k → ts ≠ [] →
      ∃ arena2 d used2,
        Abyss.surround ⟨arena, top⟩ k = some ⟨arena2, some d⟩ ∧
        IsChain arena2 (some d) (Tree.node (ts.take k) :: ts.drop k) used2 ∧
        FreeListOk arena2) := by
  refine ⟨?_, ?_, ?_⟩
  · intro hk
    subst hk
    rfl
  · intro hk hts
    subst hts
    cases hchain
    unfold Abyss.surround
    rw [if_neg (Nat.pos_iff_ne_zero.mp hk)]
    rfl
  · intro hk hts
    have hk0 : k ≠ 0 := Nat.pos_iff_ne_zero.mp hk
    have hk1 : k - 1 + 1 = k := Nat.succ_pred_eq_of_pos hk
    cases hchain with
    | nil => exact absurd rfl hts
    | cons ht hrest hdisj =>
      rename_i index t ts' used1 used2 nx
      have hchain2 : IsChain arena (some index) (t :: ts') (used1 ++ used2) :=
        .cons ht hrest hdisj
      obtain ⟨z, hseg⟩ := hchain2.to_seg
      rcases Nat.lt_or_ge k (t :: ts').length with hlt | hge
      · -- k strictly below the chain length: wrap the top k nodes
        obtain ⟨last, nxS, pre, suf, hmv, hpre, hsuf, husedEq, hdisj2⟩ :=
          (hseg.split (k - 1)).1 (by omega)
        rw [hk1] at hpre hsuf
        have hnext : arena.getNext last = some nxS := hpre.getNext_last
        have hlastmem : last ∈ pre := hpre.mem_last
        obtain ⟨bl, hbl⟩ := hpre.mem_get_seg last hlastmem
        have hsn := Arena.setNext_spec (b := bl) none hbl
        have hfree1 : FreeListOk (arena.setNext last none) := hsn.2.2.2 hfree
        have hpre1 : IsSeg (arena.setNext last none) index last
            ((t :: ts').take k) pre none := hpre.retarget none
        have hsuf1 : IsSeg (arena.setNext last none) nxS z
            ((t :: ts').drop k) suf none := by
          refine hsuf.frame_seg fun j hj => ?_
          exact hsn.2.1 j (fun hh => hdisj2 hlastmem (hh ▸ hj))
        have hins := Arena.insert_spec (arena.setNext last none)
          (.double index last (arena.getNext last)) hfree1
        set p := (arena.setNext last none).insert
          (.double index last (arena.getNext last))
        have hdnew : ∀ j, (∃ b2, (arena.setNext last none).get j = some b2) →
            j ≠ p.2 := by
          rintro j ⟨b2, hb2⟩ hh
          rw [hh, hins.2.1] at hb2
          cases hb2
        have hdpre : p.2 ∉ pre := fun hmem => by
          have := hdnew p.2 (hpre1.mem_get_seg _ hmem) rfl
          exact this
        have hdsuf : p.2 ∉ suf := fun hmem => by
          have := hdnew p.2 (hsuf1.mem_get_seg _ hmem) rfl
          exact this
        have hpre2 : IsSeg p.1 index last ((t :: ts').take k) pre none := by
          refine hpre1.frame_seg fun j hj => ?_
          exact hins.2.2.1 j (hdnew j (hpre1.mem_get_seg j hj))
        have hsuf2 : IsSeg p.1 nxS z ((t :: ts').drop k) suf none := by
          refine hsuf1.frame_seg fun j hj => ?_
          exact hins.2.2.1 j (hdnew j (hsuf1.mem_get_seg j hj))
        have hgetd : p.1.get p.2 = some (.double index last (some nxS)) := by
          rw [← hnext]
          exact hins.1
        have htree : IsTreeAt p.1 p.2 (Tree.node ((t :: ts').take k))
            (p.2 :: pre) (some nxS) := .double hgetd hpre2 hdpre
        refine ⟨p.1, p.2, (p.2 :: pre) ++ suf, ?_, ?_, ?_⟩
        · exact Abyss.surround_eq_of hk0 hmv
        · refine IsChain.cons htree hsuf2.to_chain ?_
          intro x hx hx2
          rcases List.mem_cons.mp hx with rfl | hx
          · exact hdsuf hx2
          · exact hdisj2 hx hx2
        · exact hins.2.2.2
      · -- k at least the chain length: wrap the whole chain
        have hmv : moveNext arena index (k - 1) = (z, (t :: ts').length - 1) :=
          (hseg.split (k - 1)).2 (by omega)
        have hnext : arena.getNext z = none := hseg.getNext_last
        have hzmem : z ∈ used1 ++ used2 := hseg.mem_last
        obtain ⟨bl, hbl⟩ := hseg.mem_get_seg z hzmem
        have hsn := Arena.setNext_spec (b := bl) none hbl
        have hfree1 : FreeListOk (arena.setNext z none) := hsn.2.2.2 hfree
        have hseg1 : IsSeg (arena.setNext z none) index z (t :: ts')
            (used1 ++ used2) none := hseg.retarget none
        have hins := Arena.insert_spec (arena.setNext z none)
          (.double index z (arena.getNext z)) hfree1
        set p := (arena.setNext z none).insert
          (.double index z (arena.getNext z))
        have hdnew : ∀ j, (∃ b2, (arena.setNext z none).get j = some b2) →
            j ≠ p.2 := by
          rintro j ⟨b2, hb2⟩ hh
          rw [hh, hins.2.1] at hb2
          cases hb2
        have hdused : p.2 ∉ used1 ++ used2 := fun hmem => by
          have := hdnew p.2 (hseg1.mem_get_seg _ hmem) rfl
          exact this
        have hseg2 : IsSeg p.1 index z (t :: ts') (used1 ++ used2) none := by
          refine hseg1.frame_seg fun j hj => ?_
          exact hins.2.2.1 j (hdnew j (hseg1.mem_get_seg j hj))
        have hgetd : p.1.get p.2 = some (.double index z none) := by
          rw [← hnext]
          exact hins.1
        have htake : (t :: ts').take k = t :: ts' := List.take_of_length_le hge
        have hdrop : (t :: ts').drop k = [] := List.drop_eq_nil_of_le hge
        have htree : IsTreeAt p.1 p.2 (Tree.node ((t :: ts').take k))
            (p.2 :: (used1 ++ used2)) none := by
          rw [htake]
          exact .double hgetd hseg2 hdused
        refine ⟨p.1, p.2, (p.2 :: (used1 ++ used2)) ++ [], ?_, ?_, ?_⟩
        · exact Abyss.surround_eq_of hk0 hmv
        · rw [hdrop]
          exact IsChain.cons htree .nil (by simp)
        · exact hins.2.2.2

/-- C7 counterexample: with a single bubble on the chain, `surround 3` does
not fail with the sentinel `None` as the claim requires for `k` exceeding the
chain length: it wraps the one available node and succeeds. -/
theorem surround_exceeding_length_succeeds :
    ((Abyss.new.blow 5).bind fun s => s.surround 3)
      = some ⟨⟨[.occupied (.single 5 none), .occupied (.double 0 0 none)], none⟩, some 1⟩
  ∧ ((Abyss.new.blow 5).bind fun s => s.surround 3) ≠ none := by
  refine ⟨by decide, by decide⟩

/-- Witness for C7 on the two-Single chain with `k = 2`. -/
theorem surround_wraps_min_k_len_witness :
    Abyss.surround ⟨twoSinglesArena, some 1⟩ 0 = some ⟨twoSinglesArena, some 1⟩
  ∧ ∃ arena2 d used2,
      Abyss.surround ⟨twoSinglesArena, some 1⟩ 2 = some ⟨arena2, some d⟩ ∧
      IsChain arena2 (some d)
        (Tree.node ([Tree.leaf 1, Tree.leaf 2].take 2)
          :: [Tree.leaf 1, Tree.leaf 2].drop 2) used2 ∧
      FreeListOk arena2 :=
  ⟨(surround_wraps_min_k_len 0 ⟨[], .nil⟩ twoSinglesArena_chain).1 rfl,
   (surround_wraps_min_k_len 2 ⟨[], .nil⟩ twoSinglesArena_chain).2.2
     (by decide) (List.cons_ne_nil _ _)⟩

/-! ### Claim C8: `ReadNum` -/

/-- `blow` never fails and pushes one Single. -/
theorem Abyss.blow_eq (s : Abyss) (v : Int) :
    s.blow v = some ⟨(s.arena.insert (.single v s.top)).1,
                     some (s.arena.insert (.single v s.top)).2⟩ := by
  unfold blow
  cases hp : s.arena.insert (.single v s.top) with
  | mk a i => rfl

/-- C8 (amended): executing `ReadNum` fails with the `NoNumber` error exactly
when `read_line` reads zero bytes (end of input); otherwise it pushes the
value of the leading run of ASCII digits of the line — base 10, no sign —
which is 0 when the line has no leading digit (`parse_number_input` never
fails, so the `NoNumber` branch behind it is dead code). -/
theorem readnum_eof_or_leading_digits (fuel : Nat) (st : Interpreter) :
    (st.input = [] →
      Interpreter.next fuel st .readNum = some (st, .error .noNumber)) ∧
    (∀ line rest, st.input = line :: rest →
      ∃ abyss2,
        st.abyss.blow (specLeadingNumber line) = some abyss2 ∧
        Interpreter.next fuel st .readNum
          = some ({ st with abyss := abyss2, input := rest }, .ok .next)) := by
  constructor
  · intro hinp
    simp only [Interpreter.next, hinp]
  · intro line rest hinp
    refine ⟨_, Abyss.blow_eq st.abyss (specLeadingNumber line), ?_⟩
    simp only [Interpreter.next, hinp, parse_number_input_eq, Abyss.blow_eq]

/-- Witness for C8: reading the line "42x" pushes 42. -/
theorem readnum_eof_or_leading_digits_witness :
    ∃ abyss2,
      Abyss.new.blow (specLeadingNumber ['4', '2', 'x']) = some abyss2 ∧
      Interpreter.next 10 ⟨Abyss.new, [['4', '2', 'x']], ""⟩ .readNum
        = some (⟨abyss2, [], ""⟩, .ok .next) :=
  (readnum_eof_or_leading_digits 10 ⟨Abyss.new, [['4', '2', 'x']], ""⟩).2
    ['4', '2', 'x'] [] rfl

/-! ### Claim C3: `consume` -/

/-- Folding the closure over a list of leaf values with first-error exit:
the reference behaviour `consume` must implement. -/
def foldLeaves {σ ε : Type} (f : σ → Int → Except ε σ) : σ → List Int → Except ε σ
  | acc, [] => .ok acc
  | acc, v :: rest =>
    match f acc v with
    | .ok acc2 => foldLeaves f acc2 rest
    | .error e => .error e

theorem foldLeaves_append {σ ε : Type} (f : σ → Int → Except ε σ)
    (xs ys : List Int) : ∀ acc,
    foldLeaves f acc (xs ++ ys) =
      match foldLeaves f acc xs with
      | .ok acc2 => foldLeaves f acc2 ys
      | .error e => .error e := by
  induction xs with
  | nil => intro acc; rfl
  | cons v rest ih =>
    intro acc
    have hl : foldLeaves f acc ((v :: rest) ++ ys) =
        (match f acc v with
         | .ok a => foldLeaves f a (rest ++ ys)
         | .error e => .error e) := rfl
    have hr : foldLeaves f acc (v :: rest) =
        (match f acc v with
         | .ok a => foldLeaves f a rest
         | .error e => .error e) := rfl
    rw [hl, hr]
    cases f acc v with
    | ok acc2 => exact ih acc2
    | error e => rfl

/-- C3 counterexample: `consume` removes a bubble from the arena before
emitting its value, so when the closure fails at the very first leaf the top
bubble is already gone — the arena slot the (unchanged) `top` still points at
is free — contradicting the claim that the top bubble is still present after
a failure. -/
theorem consume_error_top_already_removed :
    ((Abyss.new.blow 5).bind fun s =>
      Abyss.consume (σ := Unit) (ε := Unit) 10 s () (fun _ _ => .error ()))
      = some (⟨⟨[.free none], some 0⟩, some 0⟩, .error ())
  ∧ (⟨⟨[.free none], some 0⟩, some 0⟩ : Abyss).top = some 0
  ∧ (⟨[Entry.free none], some 0⟩ : Arena).get 0 = none := by
  refine ⟨by decide, by decide, by decide⟩

theorem consumeInner_step {σ ε : Type} (fuel : Nat) (arena : Arena)
    (index : Nat) (acc : σ) (f : σ → Int → Except ε σ) :
    Abyss.consumeInner (fuel + 1) arena index acc f =
      match arena.remove index with
      | (arena, some (.single value next)) =>
        match f acc value with
        | .ok acc2 => some (arena, .ok (acc2, next))
        | .error e => some (arena, .error e)
      | (arena, some (.double inner _ next)) =>
        Abyss.consumeLoop fuel arena inner acc f next
      | (_, none) => none := rfl

theorem consumeLoop_step {σ ε : Type} (fuel : Nat) (arena : Arena)
    (index : Nat) (acc : σ) (f : σ → Int → Except ε σ) (next : Option Nat) :
    Abyss.consumeLoop (fuel + 1) arena index acc f next =
      match Abyss.consumeInner fuel arena index acc f with
      | none => none
      | some (arena, .error e) => some (arena, .error e)
      | some (arena, .ok (acc, some nx)) => Abyss.consumeLoop fuel arena nx acc f next
      | some (arena, .ok (acc, none)) => some (arena, .ok (acc, next)) := rfl

theorem leavesList_one (t : Tree) : leavesList [t] = t.leaves := by
  show t.leaves ++ leavesList [] = t.leaves
  show t.leaves ++ [] = t.leaves
  simp

mutual

/-- Behaviour of the recursive worker of `consume` on a represented bubble:
it removes the bubble at `index` first, folds the closure over the leaves in
depth-first front-to-back order stopping at the first error, and — error or
not — the slot at `index` is freed; all slots outside `used` are untouched,
and on success every used slot is freed. -/
theorem consumeInner_spec {σ ε : Type} (acc : σ) (f : σ → Int → Except ε σ)
    {arena : Arena} {index : Nat} {t : Tree} {used : List Nat}
    {nx : Option Nat}
    (h : IsTreeAt arena index t used nx) (hfree : FreeListOk arena)
    (fuel : Nat) (hfuel : t.fuelNeeded ≤ fuel) :
    ∃ arena2,
      Abyss.consumeInner fuel arena index acc f = some (arena2,
        match foldLeaves f acc t.leaves with
        | .ok acc2 => .ok (acc2, nx)
        | .error e => .error e) ∧
      (∀ j, j ∉ used → arena2.get j = arena.get j) ∧
      arena2.get index = none ∧
      FreeListOk arena2 ∧
      (∀ acc2, foldLeaves f acc t.leaves = .ok acc2 →
        ∀ j ∈ used, arena2.get j = none) :=
  match h with
  | @IsTreeAt.single _ _ value next hget => by
    cases fuel with
    | zero => simp [Tree.fuelNeeded] at hfuel
    | succ fuel =>
      have hrm := Arena.remove_spec hfree hget
      rw [consumeInner_step, hrm.1]
      dsimp only
      have hleaf : Tree.leaves (.leaf value) = [value] := rfl
      rw [hleaf]
      have hfold : foldLeaves f acc [value] =
          (match f acc value with
           | .ok acc2 => .ok acc2
           | .error e => .error e) := by
        show (match f acc value with
              | .ok a => foldLeaves f a []
              | .error e => .error e) = _
        cases f acc value <;> rfl
      rw [hfold]
      cases hfv : f acc value with
      | ok acc2 =>
        refine ⟨_, rfl, ?_, ?_, hrm.2.2.2, ?_⟩
        · intro j hj
          exact hrm.2.2.1 j (by simpa using hj)
        · exact hrm.2.1
        · intro acc3 _ j hj
          rw [List.mem_singleton] at hj
          subst hj
          exact hrm.2.1
      | error e =>
        refine ⟨_, rfl, ?_, ?_, hrm.2.2.2, ?_⟩
        · intro j hj
          exact hrm.2.2.1 j (by simpa using hj)
        · exact hrm.2.1
        · intro acc3 habs
          simp at habs
  | @IsTreeAt.double _ _ innerFirst innerLast nx2 ts usedIn hget hinner hnotmem => by
    cases fuel with
    | zero => simp [Tree.fuelNeeded] at hfuel
    | succ fuel =>
      have hrm := Arena.remove_spec hfree hget
      rw [consumeInner_step, hrm.1]
      dsimp only
      have hinner2 : IsSeg
          (⟨arena.heap.set index (.free arena.freeHead), some index⟩ : Arena)
          innerFirst innerLast ts usedIn none := by
        refine hinner.frame_seg fun j hj => ?_
        exact hrm.2.2.1 j (fun hh => hnotmem (hh ▸ hj))
      have hfuel2 : fuelList ts ≤ fuel := by
        simp only [Tree.fuelNeeded] at hfuel
        omega
      obtain ⟨arena2, heq, hframe, hfree3, hok⟩ :=
        consumeLoop_spec acc f hinner2 hrm.2.2.2 nx2 fuel hfuel2
      have hleaves : Tree.leaves (.node ts) = leavesList ts := rfl
      refine ⟨arena2, ?_, ?_, ?_, hfree3, ?_⟩
      · rw [hleaves]
        exact heq
      · intro j hj
        rw [hframe j (fun hh => hj (List.mem_cons_of_mem _ hh))]
        exact hrm.2.2.1 j (fun hh => hj (hh ▸ List.mem_cons_self _ _))
      · rw [hframe index hnotmem]
        exact hrm.2.1
      · intro acc2 hfold j hj
        rcases List.mem_cons.mp hj with rfl | hj
        · rw [hframe j hnotmem]
          exact hrm.2.1
        · exact hok acc2 (hleaves ▸ hfold) j hj

/-- Behaviour of the sibling loop of `consume` over a represented segment. -/
theorem consumeLoop_spec {σ ε : Type} (acc : σ) (f : σ → Int → Except ε σ)
    {arena : Arena} {first z : Nat} {ts : List Tree} {used : List Nat}
    (h : IsSeg arena first z ts used none) (hfree : FreeListOk arena)
    (outerNext : Option Nat) (fuel : Nat) (hfuel : fuelList ts ≤ fuel) :
    ∃ arena2,
      Abyss.consumeLoop fuel arena first acc f outerNext = some (arena2,
        match foldLeaves f acc (leavesList ts) with
        | .ok acc2 => .ok (acc2, outerNext)
        | .error e => .error e) ∧
      (∀ j, j ∉ used → arena2.get j = arena.get j) ∧
      FreeListOk arena2 ∧
      (∀ acc2, foldLeaves f acc (leavesList ts) = .ok acc2 →
        ∀ j ∈ used, arena2.get j = none) :=
  match h with
  | @IsSeg.one _ _ t _ _ ht => by
    cases fuel with
    | zero => simp [fuelList] at hfuel
    | succ fuel =>
      rw [consumeLoop_step]
      have hfuelI : t.fuelNeeded ≤ fuel := by
        simp only [fuelList] at hfuel
        omega
      obtain ⟨arenaI, heqI, hframeI, hgetI, hfreeI, hokI⟩ :=
        consumeInner_spec acc f ht hfree fuel hfuelI
      rw [heqI, leavesList_one]
      cases hfv : foldLeaves f acc t.leaves with
      | ok acc2 => exact ⟨arenaI, rfl, hframeI, hfreeI, fun acc3 hkk => by
          cases hkk
          exact hokI acc2 hfv⟩
      | error e => exact ⟨arenaI, rfl, hframeI, hfreeI, fun acc3 habs => by
          simp at habs⟩
  | @IsSeg.cons _ _ mid _ t ts2 used1 used2 _ ht hrest hdisj => by
    cases fuel with
    | zero => simp [fuelList] at hfuel
    | succ fuel =>
      rw [consumeLoop_step]
      have hfuelI : t.fuelNeeded ≤ fuel := by
        simp only [fuelList] at hfuel
        omega
      have hfuelR : fuelList ts2 ≤ fuel := by
        simp only [fuelList] at hfuel
        omega
      obtain ⟨arenaI, heqI, hframeI, hgetI, hfreeI, hokI⟩ :=
        consumeInner_spec acc f ht hfree fuel hfuelI
      rw [heqI]
      have hll : leavesList (t :: ts2) = t.leaves ++ leavesList ts2 := rfl
      rw [hll, foldLeaves_append]
      cases hfv : foldLeaves f acc t.leaves with
      | error e =>
        refine ⟨arenaI, rfl, ?_, hfreeI, ?_⟩
        · intro j hj
          exact hframeI j (fun hh => hj (List.mem_append_left _ hh))
        · intro acc3 habs
          simp at habs
      | ok acc2 =>
        have hrest2 : IsSeg arenaI mid z ts2 used2 none := by
          refine hrest.frame_seg fun j hj => ?_
          exact hframeI j (fun hh => hdisj hh hj)
        obtain ⟨arena2, heq2, hframe2, hfree2, hok2⟩ :=
          consumeLoop_spec acc2 f hrest2 hfreeI outerNext fuel hfuelR
        refine ⟨arena2, heq2, ?_, hfree2, ?_⟩
        · intro j hj
          rw [hframe2 j (fun hh => hj (List.mem_append_right _ hh))]
          exact hframeI j (fun hh => hj (List.mem_append_left _ hh))
        · intro acc3 hfold j hj
          rcases List.mem_append.mp hj with hj | hj
          · rw [hframe2 j (fun hh => hdisj hj hh)]
            exact hokI acc2 hfv j hj
          · exact hok2 acc3 hfold j hj

end

/-- C3 (amended): on a non-empty Abyss, `consume(fn)` invokes `fn` on the
leaf values covered by the top bubble depth-first with inner chains
front-to-back (a Double yields no value of its own — the fold runs over
`t.leaves`), and stops at and propagates the first error returned by `fn`.
However each bubble is removed from the arena *before* its value is emitted,
so when `fn` fails the top bubble has already been removed: the `top`
reference is left unchanged but the arena slot it points at is free.  On
success the rest of the chain becomes the new top-level chain. -/
theorem consume_emits_depth_first {σ ε : Type} (acc : σ)
    (f : σ → Int → Except ε σ) (fuel : Nat)
    {arena : Arena} {top : Option Nat} {t : Tree} {ts : List Tree}
    {used : List Nat}
    (hfree : FreeListOk arena) (hchain : IsChain arena top (t :: ts) used)
    (hfuel : t.fuelNeeded ≤ fuel) :
    ∃ index nx arena2 used1 used2,
      top = some index ∧
      used = used1 ++ used2 ∧
      IsChain arena2 nx ts used2 ∧
      FreeListOk arena2 ∧
      arena2.get index = none ∧
      Abyss.consume fuel ⟨arena, top⟩ acc f
        = some (match foldLeaves f acc t.leaves with
                | .ok acc2 => (⟨arena2, nx⟩, .ok (acc2, true))
                | .error e => (⟨arena2, some index⟩, .error e)) := by
  cases hchain with
  | cons ht hrest hdisj =>
    rename_i index used1 used2 nx
    obtain ⟨arena2, heq, hframe, hgeti, hfree2, hok⟩ :=
      consumeInner_spec acc f ht hfree fuel hfuel
    refine ⟨index, nx, arena2, used1, used2, rfl, rfl, ?_, hfree2, hgeti, ?_⟩
    · exact hrest.frame_chain fun j hj => hframe j (fun hh => hdisj hh hj)
    · have hc : Abyss.consume fuel ⟨arena, some index⟩ acc f =
          (match Abyss.consumeInner fuel arena index acc f with
           | none => none
           | some (a2, .ok (acc2, next)) => some (⟨a2, next⟩, .ok (acc2, true))
           | some (a2, .error e) => some (⟨a2, some index⟩, .error e)) := rfl
      rw [hc, heq]
      cases hfv : foldLeaves f acc t.leaves <;> rfl

/-- Witness for C3: consuming the top Single of the two-Single chain emits
its value 1 and leaves the chain `[leaf 2]`. -/
theorem consume_emits_depth_first_witness :
    ∃ index nx arena2 used1 used2,
      (some 1 : Option Nat) = some index ∧
      ([1, 0] : List Nat) = used1 ++ used2 ∧
      IsChain arena2 nx [Tree.leaf 2] used2 ∧
      FreeListOk arena2 ∧
      arena2.get index = none ∧
      Abyss.consume 10 ⟨twoSinglesArena, some 1⟩ ([] : List Int)
          (fun acc v => (.ok (acc ++ [v]) : Except Unit (List Int)))
        = some (match foldLeaves
                  (fun acc v => (.ok (acc ++ [v]) : Except Unit (List Int)))
                  [] (Tree.leaf 1).leaves with
                | .ok acc2 => (⟨arena2, nx⟩, .ok (acc2, true))
                | .error e => (⟨arena2, some index⟩, .error e)) :=
  consume_emits_depth_first [] _ 10 ⟨[], .nil⟩ twoSinglesArena_chain (by decide)

end RustyAwa
